import Mathlib

/-!
# ServerStatus client (`clientsrc/main.go`): embedding and verified properties

The Go client keeps sliding windows of probe outcomes (`pingWorker`,
`monitorWorker`), turns cumulative network counters into rates
(`netSpeedMonitor`), runs a small session protocol (`connect`, `handleAuth`,
`handleMonitorConfig`) and then reports in a loop (`sendStatusLoop`,
`collectStatus`).

Conventions of the embedding.

* Go `int`, `int64` and `time.Duration` values are `Int`; where a 64-bit
  result can leave the range, `wrap64` is applied.
* A Go `string` is a byte sequence; it is a `List Char` here, one character
  per byte.
* A finite `float64` is the rational number it denotes. Every float64
  operation is the exact rational operation followed by `f64`, rounding to
  the nearest binary64 value, ties to even. Infinities and NaN are not
  represented.
* Goroutine loops that never return are embedded as one function per cycle
  and a fold of that function over the environment's answers, cycle by
  cycle.
-/

namespace ServerStatus

/-! ## Machine arithmetic -/

/-- Two's-complement reduction of an integer to the `int64` range. -/
def wrap64 (z : Int) : Int := (z + 2 ^ 63) % 2 ^ 64 - 2 ^ 63

/-- Worker of `natLog2`: halve until below two, at most `fuel` times. -/
def log2Aux : Nat → Nat → Nat
  | 0, _ => 0
  | fuel + 1, n => if n < 2 then 0 else log2Aux fuel (n / 2) + 1

/-- Position of the leading one bit of `n` (and `0` for `n = 0`). -/
def natLog2 (n : Nat) : Nat := log2Aux n n

/-- Binary exponent of a non-zero rational: the `e` with `2^e ≤ |q| < 2^(e+1)`. -/
def ilog2 (q : ℚ) : Int :=
  let e : Int := (natLog2 q.num.natAbs : Int) - (natLog2 q.den : Int)
  if (2 : ℚ) ^ e ≤ |q| then e else e - 1

/-- Nearest integer, ties to the even neighbour. -/
def roundEven (x : ℚ) : Int :=
  let f := ⌊x⌋
  let r := x - f
  if r < 1 / 2 then f else if 1 / 2 < r then f + 1 else if f % 2 = 0 then f else f + 1

/-- Exponent of the unit in the last place of the binary64 numbers around `q`:
53 significant bits, and the subnormal spacing `2^-1074` at the bottom. -/
def ulpExp (q : ℚ) : Int := max (ilog2 q - 52) (-1074)

/-- Rounding of a rational to binary64, round-to-nearest, ties-to-even.
Magnitudes beyond the largest binary64 number are rounded on the same grid
instead of becoming infinite. -/
def f64 (q : ℚ) : ℚ :=
  if q = 0 then 0 else (roundEven (q / (2 : ℚ) ^ ulpExp q) : ℚ) * (2 : ℚ) ^ ulpExp q

/-- Go `float64(i)` for an integer `i`. -/
def ofInt (i : Int) : ℚ := f64 (i : ℚ)

/-- Go `a - b` on float64. -/
def fsub (a b : ℚ) : ℚ := f64 (a - b)

/-- Go `a * b` on float64. -/
def fmul (a b : ℚ) : ℚ := f64 (a * b)

/-- Go `a / b` on float64, for `b ≠ 0`. -/
def fdiv (a b : ℚ) : ℚ := f64 (a / b)

/-- Truncation of a rational toward zero. -/
def truncate (x : ℚ) : Int := if 0 ≤ x then ⌊x⌋ else ⌈x⌉

/-- Go `int64(x)` for a float64 `x`: truncation toward zero. For a value
outside the `int64` range Go leaves the result to the implementation; the
amd64 result (`-2^63`) is used. -/
def toInt64 (x : ℚ) : Int :=
  let t := truncate x
  if -(2 : Int) ^ 63 ≤ t ∧ t < 2 ^ 63 then t else -(2 : Int) ^ 63

/-! ## Sliding-window probes -/

/-- Capacity of the backbone probe history (`PingPacketHistoryLen`). -/
def PingPacketHistoryLen : Nat := 64

/-- Capacity of the dynamic monitor history (`OnlinePacketHistoryLen`). -/
def OnlinePacketHistoryLen : Nat := 64

/-- `time.Second`, in nanoseconds. -/
def Second : Int := 1000000000

/-- Go `time.Duration(x) * time.Second` for a float64 number of seconds. -/
def secondsOfFloat (x : ℚ) : Int := wrap64 (toInt64 x * Second)

/-- Go `time.Duration(n) * time.Second` for an `int` number of seconds. -/
def secondsOfInt (n : Int) : Int := wrap64 (n * Second)

/-- Local variables of one `pingWorker` goroutine together with the entries
it owns in the shared maps `lostRate` and `pingTime` (those under its mark;
`none` is an absent key). -/
structure PingState where
  lostCount : Int
  history : List Int
  interval : Int
  lostRate : Option ℚ
  pingTime : Option Int
deriving DecidableEq, Repr

/-- State of `pingWorker` before its first cycle; `userInterval` is
`time.Duration(*Interval) * time.Second`. -/
def pingInit (userInterval : Int) : PingState :=
  { lostCount := 0, history := [], interval := userInterval, lostRate := none, pingTime := none }

/-- Queue maintenance at the top of a `pingWorker` cycle: at capacity, drop
the oldest entry, adjust `lostCount` and stretch the interval. -/
def pingEvict (userInterval : Int) (s : PingState) : PingState :=
  if s.history.length ≥ PingPacketHistoryLen then
    { s with
      lostCount := if s.history.head? = some 0 then s.lostCount - 1 else s.lostCount
      interval := wrap64 (userInterval * 60)
      history := s.history.tail }
  else s

/-- Recording of the dial outcome in a `pingWorker` cycle: `none` is a
failed dial, `some delay` a successful one with its delay in milliseconds. -/
def pingRecord (s : PingState) (dial : Option Int) : PingState :=
  match dial with
  | none =>
    { s with lostCount := s.lostCount + 1, history := s.history ++ [0], pingTime := some 0 }
  | some delay =>
    { s with pingTime := some delay, history := s.history ++ [1] }

/-- Publication of the loss rate at the end of a `pingWorker` cycle. -/
def pingPublish (s : PingState) : PingState :=
  if s.history.length > PingPacketHistoryLen / 2 then
    { s with
      lostRate := some (fmul (fdiv (ofInt s.lostCount) (ofInt s.history.length)) 100) }
  else s

/-- One iteration of the `for` loop of `pingWorker`; the state afterwards is
the state during `time.Sleep(interval)`. -/
def pingCycle (userInterval : Int) (s : PingState) (dial : Option Int) : PingState :=
  pingPublish (pingRecord (pingEvict userInterval s) dial)

/-- State of `pingWorker` after the cycles whose dial outcomes are `dials`. -/
def pingWorker (userInterval : Int) (dials : List (Option Int)) : PingState :=
  dials.foldl (pingCycle userInterval) (pingInit userInterval)

/-- A Go string: its bytes, one character per byte. -/
abbrev GoString := List Char

/-- The struct `MonitorServer`. The field `Type` is `typ` here; the channel
`stop` carries no data and is represented by the environment's answer to the
`select` in `monitorWorker`. -/
structure MonitorServer where
  typ : GoString
  DnsTime : Int
  ConnectTime : Int
  DownloadTime : Int
  OnlineRate : ℚ
  host : GoString
  interval : Int
deriving DecidableEq, Repr, Inhabited

/-- Result tuple `(success, dnsTime, connectTime, downloadTime)` of a check. -/
structure CheckResult where
  success : Bool
  dnsTime : Int
  connectTime : Int
  downloadTime : Int
deriving DecidableEq, Repr

/-- The function `monitorHTTP`: resolution, dial and GET are network
operations. Whatever path the function takes, it returns one result tuple;
that tuple, `net`, is supplied by the environment and may be any tuple. -/
def monitorHTTP (net : CheckResult) (_protocol _host : GoString) : CheckResult := net

/-- The function `monitorTCP`: resolution, dial, write and read are network
operations. Whatever path the function takes, it returns one result tuple;
that tuple, `net`, is supplied by the environment and may be any tuple. -/
def monitorTCP (net : CheckResult) (_host : GoString) : CheckResult := net

/-- The function `monitorCheck`: dispatch on the protocol string. -/
def monitorCheck (net : CheckResult) (protocol host : GoString) : CheckResult :=
  if protocol = "http".toList ∨ protocol = "https".toList then monitorHTTP net protocol host
  else if protocol = "tcp".toList then monitorTCP net host
  else { success := false, dnsTime := 0, connectTime := 0, downloadTime := 0 }

/-- What the environment answers during one wake-up of `monitorWorker`:
whether a value is ready on `ms.stop`, whether the name is still a key of the
registry, and what the network would answer to a check. -/
structure MonitorEnv where
  stop : Bool
  registered : Bool
  net : CheckResult
deriving DecidableEq, Repr

/-- Local variables of one `monitorWorker` goroutine, the struct it writes
to, and whether the goroutine is still running. -/
structure MonitorState where
  ms : MonitorServer
  lostCount : Int
  history : List Int
  interval : Int
  running : Bool
deriving DecidableEq, Repr

/-- State of `monitorWorker` before its first cycle. -/
def monitorInit (ms : MonitorServer) : MonitorState :=
  { ms := ms, lostCount := 0, history := [], interval := secondsOfInt ms.interval,
    running := true }

/-- Queue maintenance at the top of a `monitorWorker` cycle. -/
def monitorEvict (s : MonitorState) : MonitorState :=
  if s.history.length ≥ OnlinePacketHistoryLen then
    { s with
      lostCount := if s.history.head? = some 0 then s.lostCount - 1 else s.lostCount
      history := s.history.tail
      interval := wrap64 (secondsOfInt s.ms.interval * 5) }
  else s

/-- Recording of a check result in a `monitorWorker` cycle. -/
def monitorRecord (s : MonitorState) (r : CheckResult) : MonitorState :=
  if r.success then
    { s with
      history := s.history ++ [1]
      ms := { s.ms with
        DnsTime := r.dnsTime, ConnectTime := r.connectTime, DownloadTime := r.downloadTime } }
  else
    { s with lostCount := s.lostCount + 1, history := s.history ++ [0] }

/-- Update of `ms.OnlineRate` at the end of a `monitorWorker` cycle. -/
def monitorPublish (s : MonitorState) : MonitorState :=
  if s.history.length > 5 then
    { s with
      ms := { s.ms with
        OnlineRate := fsub 1 (fdiv (ofInt s.lostCount) (ofInt s.history.length)) } }
  else s

/-- One iteration of the `for` loop of `monitorWorker`: the two exit checks,
then maintenance, check, recording and publication. -/
def monitorCycle (s : MonitorState) (env : MonitorEnv) : MonitorState :=
  if s.running = false then s
  else if env.stop then { s with running := false }
  else if env.registered = false then { s with running := false }
  else
    monitorPublish
      (monitorRecord (monitorEvict s) (monitorCheck env.net s.ms.typ s.ms.host))

/-- State of `monitorWorker(name, ms)` after the wake-ups answered by `envs`. -/
def monitorWorker (ms : MonitorServer) (envs : List MonitorEnv) : MonitorState :=
  envs.foldl monitorCycle (monitorInit ms)

/-- Number of failure entries (zeros) of a history. -/
def failures (history : List Int) : Nat := history.count 0

/-- Ring invariant shared by both workers: bounded length, binary entries,
and a failure counter that agrees with the entries. -/
def RingInv (cap : Nat) (history : List Int) (lostCount : Int) : Prop :=
  history.length ≤ cap ∧ (∀ x ∈ history, x = 0 ∨ x = 1) ∧ lostCount = (failures history : Int)

/-- Entry that `pingWorker` appends for a dial outcome. -/
def pingEntry (dial : Option Int) : Int := if dial.isNone then 0 else 1

/-- A run of 64 dial outcomes with 19 failures spread over it. -/
def sampleDials : List (Option Int) :=
  (List.range 64).map (fun i => if i % 10 < 3 ∧ i ≤ 60 then none else some 12)

/-! ## Network rate -/

/-- The struct `netSpeed` (its mutex left out). -/
structure NetSpeed where
  netrx : Int
  nettx : Int
  clock : ℚ
  diff : ℚ
  avgrx : Int
  avgtx : Int
deriving DecidableEq, Repr

/-- The locked section of `netSpeedMonitor` for one sample `(avgrx, avgtx)`
taken at time `now`. -/
def netSpeedUpdate (s : NetSpeed) (avgrx avgtx : Int) (now : ℚ) : NetSpeed :=
  let diff := fsub now s.clock
  let netrx := if diff > 0 then toInt64 (fdiv (ofInt (wrap64 (avgrx - s.avgrx))) diff) else s.netrx
  let nettx := if diff > 0 then toInt64 (fdiv (ofInt (wrap64 (avgtx - s.avgtx))) diff) else s.nettx
  { netrx := netrx, nettx := nettx, clock := now, diff := diff, avgrx := avgrx, avgtx := avgtx }

/-! ## Go string functions -/

/-- Scan for the first position, counted from `i`, at which `sub` starts. -/
def indexFrom (sub : GoString) : GoString → Nat → Int
  | [], i => if sub.isPrefixOf [] then (i : Int) else -1
  | c :: cs, i => if sub.isPrefixOf (c :: cs) then (i : Int) else indexFrom sub cs (i + 1)

/-- Go `strings.Index(s, sub)`: first position of `sub` in `s`, or `-1`. -/
def index (s sub : GoString) : Int := indexFrom sub s 0

/-- Go `strings.Contains(s, sub)`, which is `strings.Index(s, sub) >= 0`. -/
def contains (s sub : GoString) : Bool := decide (0 ≤ index s sub)

/-- Scan for the last position, counted from `i`, at which `sub` starts;
`best` is the last one found so far. -/
def lastIndexFrom (sub : GoString) : GoString → Nat → Int → Int
  | [], i, best => if sub.isPrefixOf [] then (i : Int) else best
  | c :: cs, i, best =>
    lastIndexFrom sub cs (i + 1) (if sub.isPrefixOf (c :: cs) then (i : Int) else best)

/-- Go `strings.LastIndex(s, sub)`: last position of `sub` in `s`, or `-1`. -/
def lastIndex (s sub : GoString) : Int := lastIndexFrom sub s 0 (-1)

/-- Go `strings.Split(s, sep)` for a separator of one byte. -/
def split (sep : Char) : GoString → List GoString
  | [] => [[]]
  | c :: cs =>
    if c = sep then [] :: split sep cs
    else
      match split sep cs with
      | [] => [[c]]
      | l :: ls => (c :: l) :: ls

/-- Go slice expression `s[lo:hi]`; `none` is the run-time panic for bounds
that are out of range. -/
def slice (s : GoString) (lo hi : Int) : Option GoString :=
  if 0 ≤ lo ∧ lo ≤ hi ∧ hi ≤ (s.length : Int) then
    some ((s.drop lo.toNat).take (hi.toNat - lo.toNat))
  else none

/-! ## Connection -/

/-- Result `(buf[:n], err != nil)` of one `conn.Read(buf)`. -/
structure ReadResult where
  data : GoString
  err : Bool
deriving DecidableEq, Repr

/-- A connection to a scripted peer: the results of the reads still to come,
the results of the writes still to come (`true` for a write that succeeds),
and every byte string handed to `conn.Write` so far. A read or write beyond
the script fails. -/
structure Conn where
  reads : List ReadResult
  writes : List Bool
  sent : List GoString
deriving DecidableEq, Repr

/-- One `conn.Read(buf)`. -/
def Conn.Read (c : Conn) : ReadResult × Conn :=
  match c.reads with
  | [] => ({ data := [], err := true }, c)
  | r :: rs => (r, { c with reads := rs })

/-- One `conn.Write(b)`; the first component is `err != nil`. -/
def Conn.Write (c : Conn) (b : GoString) : Bool × Conn :=
  match c.writes with
  | [] => (true, { c with sent := c.sent ++ [b] })
  | w :: ws => (!w, { c with writes := ws, sent := c.sent ++ [b] })

/-- The function `handleAuth`, with the flags `*User` and `*Password`. -/
def handleAuth (user password : GoString) (conn : Conn) : Bool × Conn :=
  let (r1, c1) := conn.Read
  if r1.err || !contains r1.data "Authentication required".toList then (false, c1)
  else
    let (werr, c2) := c1.Write (user ++ ":".toList ++ password ++ "\n".toList)
    if werr then (false, c2)
    else
      let (r2, c3) := c2.Read
      if r2.err || !contains r2.data "Authentication successful".toList then (false, c3)
      else (true, c3)

/-! ## Monitor configuration -/

/-- The anonymous struct `cfg` that a stanza is decoded into. -/
structure MonitorConfig where
  Name : GoString
  Typ : GoString
  Host : GoString
  Interval : Int
deriving DecidableEq, Repr, Inhabited

/-- The struct literal `&MonitorServer{Type: cfg.Type, host: cfg.Host,
interval: cfg.Interval, ...}`; the other fields have their zero values. -/
def newMonitorServer (cfg : MonitorConfig) : MonitorServer :=
  { typ := cfg.Typ, DnsTime := 0, ConnectTime := 0, DownloadTime := 0, OnlineRate := 0,
    host := cfg.Host, interval := cfg.Interval }

/-- The map `monitorServer.servers`: a list of entries with distinct keys.
An entry is the struct as `handleMonitorConfig` created it; what the worker
writes through the pointer later is kept in the worker's own state
(`MonitorState.ms`). -/
abbrev Registry := List (GoString × MonitorServer)

/-- Go `m[k]` with the comma-ok form: the entry under `k`, if any. -/
def Registry.get (m : Registry) (k : GoString) : Option MonitorServer :=
  (m.find? (fun e => e.1 = k)).map (fun e => e.2)

/-- Go `m[k] = v`. -/
def Registry.set (m : Registry) (k : GoString) (v : MonitorServer) : Registry :=
  (k, v) :: m.filter (fun e => e.1 ≠ k)

/-- What one line of the configuration block leads to. -/
inductive LineStep where
  | skip
  | panic
  | register (cfg : MonitorConfig)
deriving DecidableEq, Repr

/-- Body of the `for _, line := range lines` loop of `handleMonitorConfig`.
`unmarshal` is `json.Unmarshal` into a fresh `cfg`: `none` for an error. -/
def processLine (unmarshal : GoString → Option MonitorConfig) (line : GoString) : LineStep :=
  if contains line "monitor".toList && contains line "type".toList
      && contains line "\x7b".toList && contains line "\x7d".toList then
    let start := index line "\x7b".toList
    let stop := lastIndex line "\x7d".toList + 1
    if start = -1 ∨ stop = 0 then LineStep.skip
    else
      match slice line start stop with
      | none => LineStep.panic
      | some text =>
        match unmarshal text with
        | none => LineStep.skip
        | some cfg => LineStep.register cfg
  else LineStep.skip

/-- State of the loop over the lines: the map, the goroutines started so far
(`go monitorWorker(cfg.Name, ms)`, oldest first), and whether a panic ended
the loop. -/
structure LoopState where
  servers : Registry
  spawned : List (GoString × MonitorServer)
  panicked : Bool
deriving DecidableEq, Repr

/-- The loop over the lines of the block. -/
def configLoop (unmarshal : GoString → Option MonitorConfig) :
    List GoString → LoopState → LoopState
  | [], st => st
  | line :: rest, st =>
    match processLine unmarshal line with
    | LineStep.skip => configLoop unmarshal rest st
    | LineStep.panic => { st with panicked := true }
    | LineStep.register cfg =>
      configLoop unmarshal rest
        { st with
          servers := st.servers.set cfg.Name (newMonitorServer cfg)
          spawned := st.spawned ++ [(cfg.Name, newMonitorServer cfg)] }

/-- How a call of `handleMonitorConfig` ends. -/
inductive ConfigResult where
  | ok (checkIP : Int)
  | readError
  | unknownFamily
  | panicked
deriving DecidableEq, Repr

/-- Everything a call of `handleMonitorConfig` leaves behind. -/
structure ConfigOut where
  result : ConfigResult
  conn : Conn
  servers : Registry
  spawned : List (GoString × MonitorServer)
deriving DecidableEq, Repr

/-- The function `handleMonitorConfig`; `servers` is the map before the call. -/
def handleMonitorConfig (unmarshal : GoString → Option MonitorConfig) (conn : Conn)
    (servers : Registry) : ConfigOut :=
  let (r, c1) := conn.Read
  if r.err then { result := ConfigResult.readError, conn := c1, servers := servers, spawned := [] }
  else
    let data := r.data
    let checkIP : Option Int :=
      if contains data "IPv4".toList then some 6
      else if contains data "IPv6".toList then some 4
      else none
    match checkIP with
    | none =>
      { result := ConfigResult.unknownFamily, conn := c1, servers := servers, spawned := [] }
    | some ip =>
      let st := configLoop unmarshal (split '\n' data)
        { servers := [], spawned := [], panicked := false }
      { result := if st.panicked then ConfigResult.panicked else ConfigResult.ok ip,
        conn := c1, servers := st.servers, spawned := st.spawned }

/-- How a call of `connect` proceeds: it returns early, dies in a panic, or
calls `sendStatusLoop(conn, checkIP)`. -/
inductive ConnectResult where
  | dialFailed
  | authFailed
  | configFailed
  | panicked
  | reporting (checkIP : Int)
deriving DecidableEq, Repr

/-- Everything a call of `connect` leaves behind up to the reporting loop. -/
structure ConnectOut where
  result : ConnectResult
  conn : Option Conn
  servers : Registry
  spawned : List (GoString × MonitorServer)
deriving DecidableEq, Repr

/-- The function `connect` up to its call of `sendStatusLoop`; `dial` is the
outcome of `net.DialTimeout`, `none` for an error. -/
def connect (unmarshal : GoString → Option MonitorConfig) (user password : GoString)
    (dial : Option Conn) (servers : Registry) : ConnectOut :=
  match dial with
  | none => { result := ConnectResult.dialFailed, conn := none, servers := servers, spawned := [] }
  | some conn =>
    let (ok, c1) := handleAuth user password conn
    if !ok then
      { result := ConnectResult.authFailed, conn := some c1, servers := servers, spawned := [] }
    else
      let out := handleMonitorConfig unmarshal c1 servers
      match out.result with
      | ConfigResult.ok ip =>
        { result := ConnectResult.reporting ip, conn := some out.conn, servers := out.servers,
          spawned := out.spawned }
      | ConfigResult.panicked =>
        { result := ConnectResult.panicked, conn := some out.conn, servers := out.servers,
          spawned := out.spawned }
      | _ =>
        { result := ConnectResult.configFailed, conn := some out.conn, servers := out.servers,
          spawned := out.spawned }

/-! ## Reporting loop -/

/-- The part of a `ServerStatus` snapshot that the countdown decides, and
the calls of `checkNetwork` made while building it (their arguments). -/
structure StatusOut where
  Online4 : Bool
  Online6 : Bool
  checks : List Int
deriving DecidableEq, Repr

/-- The online-state section of `collectStatus`: `reach` is what
`checkNetwork` answers if it is called, `Interval` is the flag `*Interval`;
the second component is `*timer` afterwards. The other fields of the
snapshot are samples that neither read nor write the timer. -/
def collectStatus (reach : Bool) (Interval : ℚ) (checkIP : Int) (timer : ℚ) : StatusOut × ℚ :=
  if timer ≤ 0 then
    let out : StatusOut :=
      if checkIP = 4 then { Online4 := reach, Online6 := false, checks := [4] }
      else { Online4 := false, Online6 := reach, checks := [6] }
    (out, fsub 150 Interval)
  else ({ Online4 := false, Online6 := false, checks := [] }, fsub timer Interval)

/-- What the environment answers during one cycle of `sendStatusLoop`. -/
structure ReportEnv where
  reach : Bool
  marshalErr : Bool
  writeErr : Bool
deriving DecidableEq, Repr

/-- The `for` loop of `sendStatusLoop` from a given timer value: the
snapshots built, cycle by cycle, until an error breaks the loop or the
environment's answers end. -/
def statusLoop (Interval : ℚ) (checkIP : Int) : ℚ → List ReportEnv → List StatusOut
  | _, [] => []
  | timer, env :: rest =>
    let r := collectStatus env.reach Interval checkIP timer
    if env.marshalErr || env.writeErr then [r.1]
    else r.1 :: statusLoop Interval checkIP r.2 rest

/-- The function `sendStatusLoop`: the loop started with `timer := 0.0`. -/
def sendStatusLoop (Interval : ℚ) (checkIP : Int) (envs : List ReportEnv) : List StatusOut :=
  statusLoop Interval checkIP 0 envs

/-- The stanza of the protocol round trip, decoded. -/
def m1Config : MonitorConfig :=
  { Name := "m1".toList, Typ := "tcp".toList, Host := "example.com:80".toList, Interval := 30 }

/-- A stanza whose type names no protocol handler. -/
def unknownConfig : MonitorConfig :=
  { Name := "m2".toList, Typ := "unknown".toList, Host := "example.com".toList, Interval := 30 }

/-- Seven wake-ups of a registered worker; the network fails the third and
the sixth check. -/
def sampleEnvs : List MonitorEnv :=
  (List.range 7).map (fun i =>
    { stop := false, registered := true,
      net := { success := decide (i % 3 ≠ 2), dnsTime := 3, connectTime := 20,
               downloadTime := 41 } })

/-- A peer that asks for credentials, accepts them and then sends `block`. -/
def scriptedPeer (block : GoString) : Conn :=
  { reads := [{ data := "Authentication required".toList, err := false },
              { data := "Authentication successful. Access granted.".toList, err := false },
              { data := block, err := false }],
    writes := [true], sent := [] }

/-- The stanza that a line carries, in the words of the specification: the
line contains "monitor", "type", an opening and a closing brace, and its text
from the first opening brace to the last closing brace decodes. -/
def stanzaOf (unmarshal : GoString → Option MonitorConfig) (line : GoString) :
    Option MonitorConfig :=
  if contains line "monitor".toList && contains line "type".toList
      && contains line "\x7b".toList && contains line "\x7d".toList then
    (slice line (index line "\x7b".toList) (lastIndex line "\x7d".toList + 1)).bind unmarshal
  else none

/-- The stanzas of a configuration block, line by line. -/
def parsedStanzas (unmarshal : GoString → Option MonitorConfig) (data : GoString) :
    List MonitorConfig :=
  (split '\n' data).filterMap (stanzaOf unmarshal)

/-- Text of the stanza of the protocol round trip. -/
def stanzaText : GoString :=
  "\x7b\"name\":\"m1\",\"type\":\"tcp\",\"host\":\"example.com:80\",\"interval\":30\x7d".toList

/-- Text of a second well-formed stanza. -/
def stanzaText2 : GoString :=
  "\x7b\"name\":\"m2\",\"type\":\"http\",\"host\":\"http://example.org\",\"interval\":60\x7d".toList

/-- The second stanza, decoded. -/
def m2Config : MonitorConfig :=
  { Name := "m2".toList, Typ := "http".toList, Host := "http://example.org".toList,
    Interval := 60 }

/-- Stand-in for `json.Unmarshal` in the examples: it decodes the two sample
stanzas and reports an error for every other text. -/
def sampleUnmarshal (text : GoString) : Option MonitorConfig :=
  if text = stanzaText then some m1Config
  else if text = stanzaText2 then some m2Config
  else none

/-- A block with the IPv4 marker and the bare stanza on a line of its own. -/
def bareBlock : GoString := "You are connecting via: IPv4\n".toList ++ stanzaText

/-- A block with the IPv4 marker and one line that has the word "monitor" in
front of the stanza. -/
def monitorBlock : GoString :=
  "You are connecting via: IPv4\nmonitor ".toList ++ stanzaText ++ "\n".toList

/-- A block with two well-formed stanzas around a malformed one. -/
def mixedBlock : GoString :=
  "You are connecting via: IPv4\nmonitor ".toList ++ stanzaText
    ++ "\nmonitor \x7b\"name\":\"m3\",\"type\":\x7d\nmonitor ".toList ++ stanzaText2

/-- A registry left over from an earlier session. -/
def oldRegistry : Registry := [("old".toList, newMonitorServer unknownConfig)]

/-- A connection on which the next read delivers `block`. -/
def blockConn (block : GoString) : Conn :=
  { reads := [{ data := block, err := false }], writes := [], sent := ["u:p\n".toList] }

/-- What one cycle does to `*timer`: reset to 150 when it has run out, then
the subtraction of `*Interval`. -/
def timerStep (Interval : ℚ) (timer : ℚ) : ℚ :=
  if timer ≤ 0 then fsub 150 Interval else fsub timer Interval

/-- Answers of an environment in which the network is reachable and nothing
fails. -/
def quietEnv : ReportEnv := { reach := true, marshalErr := false, writeErr := false }

/-- The wake-ups of a `monitorWorker` that reach the body of its loop: those
before the first one at which a value is ready on `ms.stop` or the name is no
longer registered. -/
def bodyRuns (envs : List MonitorEnv) : List MonitorEnv :=
  envs.takeWhile (fun e => !e.stop && e.registered)

/-- A wake-up of a registered worker whose check succeeds. -/
def goodEnv : MonitorEnv :=
  { stop := false, registered := true,
    net := { success := true, dnsTime := 3, connectTime := 20, downloadTime := 41 } }

/-- A connection on which the next read fails. -/
def brokenConn : Conn :=
  { reads := [{ data := [], err := true }], writes := [], sent := ["u:p\n".toList] }

/-! ## Properties -/

/-! ### Rounding to binary64 -/

theorem log2Aux_spec (fuel n : Nat) (hn : 0 < n) (hf : n ≤ fuel) :
    2 ^ log2Aux fuel n ≤ n ∧ n < 2 ^ (log2Aux fuel n + 1) := by
  induction fuel generalizing n with
  | zero => omega
  | succ k ih =>
    unfold log2Aux
    by_cases h2 : n < 2
    · simp only [h2, if_true]
      constructor <;> simp <;> omega
    · simp only [h2, if_false]
      have hh := ih (n / 2) (by omega) (by omega)
      obtain ⟨h1, h3⟩ := hh
      constructor
      · rw [pow_succ]; omega
      · rw [pow_succ]; omega

theorem natLog2_spec (n : Nat) (hn : 0 < n) :
    2 ^ natLog2 n ≤ n ∧ n < 2 ^ (natLog2 n + 1) :=
  log2Aux_spec n n hn le_rfl

theorem ilog2_spec (q : ℚ) (hq : q ≠ 0) :
    (2 : ℚ) ^ ilog2 q ≤ |q| ∧ |q| < (2 : ℚ) ^ (ilog2 q + 1) := by
  have hnum : 0 < q.num.natAbs := Int.natAbs_pos.mpr (Rat.num_ne_zero.mpr hq)
  have hden : 0 < q.den := q.den_pos
  obtain ⟨a1, a2⟩ := natLog2_spec _ hnum
  obtain ⟨b1, b2⟩ := natLog2_spec _ hden
  have habs : |q| = (q.num.natAbs : ℚ) / (q.den : ℚ) := by
    conv_lhs => rw [← Rat.num_div_den q]
    rw [abs_div, Nat.abs_cast]
    congr 1
    rw [Nat.cast_natAbs, Int.cast_abs]
  set a := natLog2 q.num.natAbs with ha
  set b := natLog2 q.den with hb
  have a1q : (2 : ℚ) ^ a ≤ (q.num.natAbs : ℚ) := by exact_mod_cast a1
  have a2q : (q.num.natAbs : ℚ) < (2 : ℚ) ^ (a + 1) := by exact_mod_cast a2
  have b1q : (2 : ℚ) ^ b ≤ (q.den : ℚ) := by exact_mod_cast b1
  have b2q : (q.den : ℚ) < (2 : ℚ) ^ (b + 1) := by exact_mod_cast b2
  have hdq : (0 : ℚ) < q.den := by exact_mod_cast hden
  have two_pos : ∀ z : ℤ, (0 : ℚ) < 2 ^ z := fun z => zpow_pos (by norm_num) z
  have hlow : (2 : ℚ) ^ ((a : ℤ) - b - 1) < |q| := by
    rw [habs, lt_div_iff₀ hdq]
    calc (2 : ℚ) ^ ((a : ℤ) - b - 1) * q.den < 2 ^ ((a : ℤ) - b - 1) * 2 ^ (b + 1) :=
          mul_lt_mul_of_pos_left b2q (two_pos _)
      _ = 2 ^ a := by
          rw [← zpow_natCast, ← zpow_natCast, ← zpow_add₀ (by norm_num)]
          congr 1; push_cast; ring
      _ ≤ _ := a1q
  have hhigh : |q| < (2 : ℚ) ^ ((a : ℤ) - b + 1) := by
    rw [habs, div_lt_iff₀ hdq]
    calc (q.num.natAbs : ℚ) < 2 ^ (a + 1) := a2q
      _ = 2 ^ ((a : ℤ) - b + 1) * 2 ^ b := by
          rw [← zpow_natCast, ← zpow_natCast, ← zpow_add₀ (by norm_num)]
          congr 1; push_cast; ring
      _ ≤ _ := mul_le_mul_of_nonneg_left b1q (two_pos _).le
  unfold ilog2
  simp only
  split
  · rename_i h
    exact ⟨h, hhigh⟩
  · rename_i h
    refine ⟨hlow.le, ?_⟩
    rw [sub_add_cancel]
    exact not_le.mp h

theorem roundEven_intCast (z : ℤ) : roundEven (z : ℚ) = z := by
  unfold roundEven
  simp

theorem roundEven_ge_floor (x : ℚ) : ⌊x⌋ ≤ roundEven x := by
  unfold roundEven
  simp only
  split
  · exact le_rfl
  · split
    · omega
    · split <;> omega

theorem roundEven_le_floor_succ (x : ℚ) : roundEven x ≤ ⌊x⌋ + 1 := by
  unfold roundEven
  simp only
  split
  · omega
  · split
    · omega
    · split <;> omega

theorem roundEven_mono {x y : ℚ} (h : x ≤ y) : roundEven x ≤ roundEven y := by
  have hf : ⌊x⌋ ≤ ⌊y⌋ := Int.floor_mono h
  rcases lt_or_eq_of_le hf with hlt | heq
  · calc roundEven x ≤ ⌊x⌋ + 1 := roundEven_le_floor_succ x
      _ ≤ ⌊y⌋ := hlt
      _ ≤ roundEven y := roundEven_ge_floor y
  · have hr : x - ⌊x⌋ ≤ y - ⌊y⌋ := by rw [heq]; linarith
    unfold roundEven
    simp only
    rw [← heq] at hr ⊢
    by_cases h1 : x - ⌊x⌋ < 1 / 2
    · simp only [h1, if_true]
      split
      · exact le_rfl
      · split
        · omega
        · split <;> omega
    · simp only [h1, if_false]
      have h1y : ¬ (y - ⌊x⌋ < 1 / 2) := by
        intro hc; exact h1 (lt_of_le_of_lt hr hc)
      simp only [h1y, if_false]
      by_cases h2 : 1 / 2 < x - ⌊x⌋
      · have h2y : 1 / 2 < y - ⌊x⌋ := lt_of_lt_of_le h2 hr
        simp only [h2, h2y, if_true]
        exact le_rfl
      · simp only [h2, if_false]
        split_ifs <;> omega

/-- Rounding on the grid of multiples of `2^u`. -/
theorem grid_mono (u : ℤ) {a b : ℚ} (h : a ≤ b) :
    (roundEven (a / (2 : ℚ) ^ u) : ℚ) * (2 : ℚ) ^ u ≤ (roundEven (b / (2 : ℚ) ^ u) : ℚ) * (2 : ℚ) ^ u := by
  have hp : (0 : ℚ) < 2 ^ u := zpow_pos (by norm_num) u
  have hd : a / (2 : ℚ) ^ u ≤ b / (2 : ℚ) ^ u := div_le_div_of_nonneg_right h hp.le
  have hr : roundEven (a / (2 : ℚ) ^ u) ≤ roundEven (b / (2 : ℚ) ^ u) := roundEven_mono hd
  have hq : (roundEven (a / (2 : ℚ) ^ u) : ℚ) ≤ (roundEven (b / (2 : ℚ) ^ u) : ℚ) := by
    exact_mod_cast hr
  exact mul_le_mul_of_nonneg_right hq hp.le

theorem grid_fix (u : ℤ) (z : ℤ) :
    (roundEven ((z : ℚ) * (2 : ℚ) ^ u / (2 : ℚ) ^ u) : ℚ) * (2 : ℚ) ^ u = (z : ℚ) * (2 : ℚ) ^ u := by
  have hp : (0 : ℚ) < 2 ^ u := zpow_pos (by norm_num) u
  rw [mul_div_assoc, div_self hp.ne', mul_one, roundEven_intCast]

theorem ilog2_mono {a b : ℚ} (ha : 0 < a) (h : a ≤ b) : ilog2 a ≤ ilog2 b := by
  have hb : 0 < b := lt_of_lt_of_le ha h
  obtain ⟨a1, _⟩ := ilog2_spec a ha.ne'
  obtain ⟨_, b2⟩ := ilog2_spec b hb.ne'
  rw [abs_of_pos ha] at a1
  rw [abs_of_pos hb] at b2
  have : (2 : ℚ) ^ ilog2 a < 2 ^ (ilog2 b + 1) := lt_of_le_of_lt (a1.trans h) b2
  have := (zpow_lt_zpow_iff_right₀ (by norm_num : (1 : ℚ) < 2)).mp this
  omega

theorem f64_zero : f64 0 = 0 := by simp [f64]

theorem f64_nonneg {q : ℚ} (h : 0 ≤ q) : 0 ≤ f64 q := by
  unfold f64
  split
  · exact le_rfl
  · have hp : (0 : ℚ) < 2 ^ ulpExp q := zpow_pos (by norm_num) _
    apply mul_nonneg _ hp.le
    have : roundEven 0 ≤ roundEven (q / 2 ^ ulpExp q) := roundEven_mono (div_nonneg h hp.le)
    have h0 : roundEven 0 = 0 := by simpa using roundEven_intCast 0
    rw [h0] at this
    exact_mod_cast this

theorem f64_mono_nonneg {a b : ℚ} (ha : 0 ≤ a) (h : a ≤ b) : f64 a ≤ f64 b := by
  rcases eq_or_lt_of_le ha with h0 | hpos
  · rw [← h0, f64_zero]; exact f64_nonneg (ha.trans h)
  have hb : 0 < b := lt_of_lt_of_le hpos h
  have hle := ilog2_mono hpos h
  have hu : ulpExp a ≤ ulpExp b := by unfold ulpExp; omega
  have ea : f64 a = (roundEven (a / (2 : ℚ) ^ ulpExp a) : ℚ) * (2 : ℚ) ^ ulpExp a := by
    unfold f64; simp [hpos.ne']
  have eb : f64 b = (roundEven (b / (2 : ℚ) ^ ulpExp b) : ℚ) * (2 : ℚ) ^ ulpExp b := by
    unfold f64; simp [hb.ne']
  rcases eq_or_lt_of_le hu with heq | hlt
  · rw [ea, eb, heq]; exact grid_mono _ h
  · have hub : ulpExp b = ilog2 b - 52 := by unfold ulpExp at hlt ⊢; omega
    have hab : ilog2 a + 1 ≤ ilog2 b := by unfold ulpExp at hlt; omega
    obtain ⟨_, a2⟩ := ilog2_spec a hpos.ne'
    obtain ⟨b1, _⟩ := ilog2_spec b hb.ne'
    rw [abs_of_pos hpos] at a2
    rw [abs_of_pos hb] at b1
    have hB : a ≤ (2 : ℚ) ^ ilog2 b :=
      a2.le.trans (zpow_le_zpow_right₀ (by norm_num) hab)
    have hBa : (2 : ℚ) ^ ilog2 b = ((2 ^ (ilog2 b - ulpExp a).toNat : ℤ) : ℚ) * 2 ^ ulpExp a := by
      have hnn : 0 ≤ ilog2 b - ulpExp a := by omega
      push_cast
      rw [← zpow_natCast, Int.toNat_of_nonneg hnn, ← zpow_add₀ (by norm_num)]
      congr 1; ring
    have hBb : (2 : ℚ) ^ ilog2 b = ((2 ^ 52 : ℤ) : ℚ) * 2 ^ ulpExp b := by
      have h52 : ((2 ^ 52 : ℤ) : ℚ) = (2 : ℚ) ^ (52 : ℤ) := by norm_num
      rw [h52, hub, ← zpow_add₀ (by norm_num)]
      congr 1; ring
    calc f64 a = (roundEven (a / (2 : ℚ) ^ ulpExp a) : ℚ) * (2 : ℚ) ^ ulpExp a := ea
      _ ≤ (roundEven ((2 : ℚ) ^ ilog2 b / (2 : ℚ) ^ ulpExp a) : ℚ) * (2 : ℚ) ^ ulpExp a :=
          grid_mono _ hB
      _ = (2 : ℚ) ^ ilog2 b := by
          conv_lhs => rw [hBa]
          rw [grid_fix, ← hBa]
      _ = (roundEven ((2 : ℚ) ^ ilog2 b / (2 : ℚ) ^ ulpExp b) : ℚ) * (2 : ℚ) ^ ulpExp b := by
          conv_rhs => rw [hBb]
          rw [grid_fix, ← hBb]
      _ ≤ (roundEven (b / (2 : ℚ) ^ ulpExp b) : ℚ) * (2 : ℚ) ^ ulpExp b := grid_mono _ b1
      _ = f64 b := eb.symm

/-- Numbers `z * 2^t` with at most 53 significant bits and `t ≥ -1074` are
binary64 values: rounding leaves them unchanged. -/
theorem f64_scaled (z t : ℤ) (hz : |z| ≤ 2 ^ 53) (ht : -1074 ≤ t) :
    f64 ((z : ℚ) * (2 : ℚ) ^ t) = (z : ℚ) * (2 : ℚ) ^ t := by
  have two_pos : ∀ k : ℤ, (0 : ℚ) < 2 ^ k := fun k => zpow_pos (by norm_num) k
  by_cases hq : (z : ℚ) * (2 : ℚ) ^ t = 0
  · rw [hq, f64_zero]
  have hz0 : (z : ℚ) ≠ 0 := fun h => hq (by rw [h, zero_mul])
  obtain ⟨e1, _⟩ := ilog2_spec _ hq
  set q := (z : ℚ) * (2 : ℚ) ^ t with hqdef
  have habs : |q| = (|z| : ℤ) * (2 : ℚ) ^ t := by
    rw [hqdef, abs_mul, abs_of_pos (two_pos t), Int.cast_abs]
  have hzq : ((|z| : ℤ) : ℚ) ≤ (2 : ℚ) ^ (53 : ℤ) := by
    calc ((|z| : ℤ) : ℚ) ≤ ((2 ^ 53 : ℤ) : ℚ) := by exact_mod_cast hz
      _ = (2 : ℚ) ^ (53 : ℤ) := by norm_num
  have hup : |q| ≤ (2 : ℚ) ^ (53 + t) := by
    rw [habs, zpow_add₀ (by norm_num)]
    exact mul_le_mul_of_nonneg_right hzq (two_pos t).le
  have he : ilog2 q ≤ 53 + t :=
    (zpow_le_zpow_iff_right₀ (by norm_num : (1 : ℚ) < 2)).mp (e1.trans hup)
  have key : ∃ m : ℤ, q = (m : ℚ) * (2 : ℚ) ^ ulpExp q := by
    rcases lt_or_eq_of_le he with hlt | heq
    · have hu : ulpExp q ≤ t := by unfold ulpExp; omega
      refine ⟨z * 2 ^ (t - ulpExp q).toNat, ?_⟩
      push_cast
      rw [← zpow_natCast, Int.toNat_of_nonneg (by omega), mul_assoc, ← zpow_add₀ (by norm_num)]
      rw [hqdef]
      congr 2; ring
    · have hu : ulpExp q = t + 1 := by unfold ulpExp; omega
      have habs2 : ((|z| : ℤ) : ℚ) = (2 : ℚ) ^ (53 : ℤ) := by
        apply le_antisymm hzq
        have h1 : (2 : ℚ) ^ (53 + t) ≤ (|z| : ℤ) * (2 : ℚ) ^ t := by
          rw [← habs, ← heq]; exact e1
        rw [zpow_add₀ (by norm_num)] at h1
        exact le_of_mul_le_mul_right h1 (two_pos t)
      have hzabs : |z| = 2 ^ 53 := by
        have : ((|z| : ℤ) : ℚ) = ((2 ^ 53 : ℤ) : ℚ) := by rw [habs2]; norm_num
        exact_mod_cast this
      rcases abs_choice z with hpos | hneg
      · refine ⟨2 ^ 52, ?_⟩
        rw [hu, hqdef, ← hpos, hzabs, zpow_add₀ (by norm_num)]
        push_cast; ring
      · refine ⟨-(2 ^ 52), ?_⟩
        have hzv : z = -(2 ^ 53) := by rw [← hzabs, hneg, neg_neg]
        rw [hu, hqdef, hzv, zpow_add₀ (by norm_num)]
        push_cast; ring
  obtain ⟨m, hm⟩ := key
  unfold f64
  simp only [hq, if_false]
  conv_lhs => rw [hm]
  set u := ulpExp q
  have hmu : ulpExp ((m : ℚ) * (2 : ℚ) ^ u) = u := by rw [← hm]
  rw [hmu, grid_fix]
  exact hm.symm

theorem f64_intCast (z : ℤ) (hz : |z| ≤ 2 ^ 53) : f64 (z : ℚ) = z := by
  have := f64_scaled z 0 hz (by norm_num)
  simpa using this

theorem f64_one : f64 1 = 1 := by
  have := f64_intCast 1 (by norm_num)
  simpa using this

theorem f64_unit_interval {x : ℚ} (h0 : 0 ≤ x) (h1 : x ≤ 1) : 0 ≤ f64 x ∧ f64 x ≤ 1 :=
  ⟨f64_nonneg h0, by simpa [f64_one] using f64_mono_nonneg h0 h1⟩

theorem failures_append_zero (h : List Int) : failures (h ++ [0]) = failures h + 1 := by
  simp [failures]

theorem failures_append_one (h : List Int) : failures (h ++ [1]) = failures h := by
  simp [failures]

theorem failures_le_length (h : List Int) : failures h ≤ h.length := by
  unfold failures
  exact List.count_le_length 0 h

/-- Dropping the oldest entry of a full ring keeps the invariant with room
for one more entry. -/
theorem ringInv_evict (cap : Nat) (h : List Int) (lc : Int) (hinv : RingInv cap h lc)
    (hfull : h.length ≥ cap) (hcap : 0 < cap) :
    h.tail.length + 1 ≤ cap ∧ (∀ x ∈ h.tail, x = 0 ∨ x = 1) ∧
      (if h.head? = some 0 then lc - 1 else lc) = (failures h.tail : Int) := by
  obtain ⟨hlen, hbin, hcnt⟩ := hinv
  cases h with
  | nil => simp at hfull; omega
  | cons x t =>
    refine ⟨by simpa using hlen, fun y hy => hbin y (List.mem_cons_of_mem x hy), ?_⟩
    by_cases hx : x = 0
    · subst hx
      simp [failures] at hcnt ⊢
      omega
    · have hne : (x == (0 : Int)) = false := by simpa using hx
      simp [failures, List.count_cons, hx, hne] at hcnt ⊢
      exact hcnt

theorem ringInv_push (cap : Nat) (h : List Int) (lc : Int)
    (hlen : h.length + 1 ≤ cap) (hbin : ∀ x ∈ h, x = 0 ∨ x = 1)
    (hcnt : lc = (failures h : Int)) :
    RingInv cap (h ++ [0]) (lc + 1) ∧ RingInv cap (h ++ [1]) lc := by
  refine ⟨⟨by simpa using hlen, ?_, ?_⟩, ⟨by simpa using hlen, ?_, ?_⟩⟩
  · intro x hx
    rcases List.mem_append.mp hx with hx | hx
    · exact hbin x hx
    · left; simpa using hx
  · rw [failures_append_zero, hcnt]; push_cast; ring
  · intro x hx
    rcases List.mem_append.mp hx with hx | hx
    · exact hbin x hx
    · right; simpa using hx
  · rw [failures_append_one, hcnt]

theorem pingCycle_inv (u : Int) (s : PingState) (dial : Option Int)
    (hinv : RingInv PingPacketHistoryLen s.history s.lostCount) :
    RingInv PingPacketHistoryLen (pingCycle u s dial).history (pingCycle u s dial).lostCount := by
  have hev : (pingEvict u s).history.length + 1 ≤ PingPacketHistoryLen ∧
      (∀ x ∈ (pingEvict u s).history, x = 0 ∨ x = 1) ∧
      (pingEvict u s).lostCount = (failures (pingEvict u s).history : Int) := by
    unfold pingEvict
    by_cases hfull : s.history.length ≥ PingPacketHistoryLen
    · simp only [hfull, if_true]
      exact ringInv_evict _ _ _ hinv hfull (by decide)
    · simp only [hfull, if_false]
      exact ⟨by omega, hinv.2.1, hinv.2.2⟩
  obtain ⟨h1, h2, h3⟩ := hev
  have hp := ringInv_push _ _ _ h1 h2 h3
  have hrec : RingInv PingPacketHistoryLen (pingRecord (pingEvict u s) dial).history
      (pingRecord (pingEvict u s) dial).lostCount := by
    cases dial with
    | none => exact hp.1
    | some d => exact hp.2
  unfold pingCycle pingPublish
  split <;> exact hrec

theorem pingWorker_inv (u : Int) (dials : List (Option Int)) :
    RingInv PingPacketHistoryLen (pingWorker u dials).history (pingWorker u dials).lostCount := by
  unfold pingWorker
  induction dials using List.reverseRecOn with
  | nil => simp [pingInit, RingInv, failures]
  | append_singleton ds d ih =>
    rw [List.foldl_append]
    exact pingCycle_inv u _ d ih

theorem monitorCycle_inv (s : MonitorState) (env : MonitorEnv)
    (hinv : RingInv OnlinePacketHistoryLen s.history s.lostCount) :
    RingInv OnlinePacketHistoryLen (monitorCycle s env).history (monitorCycle s env).lostCount := by
  have hev : (monitorEvict s).history.length + 1 ≤ OnlinePacketHistoryLen ∧
      (∀ x ∈ (monitorEvict s).history, x = 0 ∨ x = 1) ∧
      (monitorEvict s).lostCount = (failures (monitorEvict s).history : Int) := by
    unfold monitorEvict
    by_cases hfull : s.history.length ≥ OnlinePacketHistoryLen
    · simp only [hfull, if_true]
      exact ringInv_evict _ _ _ hinv hfull (by decide)
    · simp only [hfull, if_false]
      exact ⟨by omega, hinv.2.1, hinv.2.2⟩
  obtain ⟨h1, h2, h3⟩ := hev
  have hp := ringInv_push _ _ _ h1 h2 h3
  have hrec : ∀ r, RingInv OnlinePacketHistoryLen (monitorRecord (monitorEvict s) r).history
      (monitorRecord (monitorEvict s) r).lostCount := by
    intro r
    unfold monitorRecord
    split
    · exact hp.2
    · exact hp.1
  unfold monitorCycle
  split
  · exact hinv
  · split
    · exact hinv
    · split
      · exact hinv
      · unfold monitorPublish
        split <;> exact hrec _

theorem monitorWorker_inv (ms : MonitorServer) (envs : List MonitorEnv) :
    RingInv OnlinePacketHistoryLen (monitorWorker ms envs).history
      (monitorWorker ms envs).lostCount := by
  unfold monitorWorker
  induction envs using List.reverseRecOn with
  | nil => simp [monitorInit, RingInv, failures]
  | append_singleton es e ih =>
    rw [List.foldl_append]
    exact monitorCycle_inv _ e ih

theorem pingEvict_inv (u : Int) (s : PingState)
    (hinv : RingInv PingPacketHistoryLen s.history s.lostCount) :
    (pingEvict u s).history.length + 1 ≤ PingPacketHistoryLen ∧
      (pingEvict u s).lostCount = (failures (pingEvict u s).history : Int) := by
  unfold pingEvict
  by_cases hfull : s.history.length ≥ PingPacketHistoryLen
  · simp only [hfull, if_true]
    have := ringInv_evict _ _ _ hinv hfull (by decide)
    exact ⟨this.1, this.2.2⟩
  · simp only [hfull, if_false]
    exact ⟨by omega, hinv.2.2⟩

theorem monitorEvict_inv (s : MonitorState)
    (hinv : RingInv OnlinePacketHistoryLen s.history s.lostCount) :
    (monitorEvict s).history.length + 1 ≤ OnlinePacketHistoryLen ∧
      (monitorEvict s).lostCount = (failures (monitorEvict s).history : Int) := by
  unfold monitorEvict
  by_cases hfull : s.history.length ≥ OnlinePacketHistoryLen
  · simp only [hfull, if_true]
    have := ringInv_evict _ _ _ hinv hfull (by decide)
    exact ⟨this.1, this.2.2⟩
  · simp only [hfull, if_false]
    exact ⟨by omega, hinv.2.2⟩

/-- C1. After any number of cycles of `pingWorker` and of `monitorWorker`,
whatever the probe outcomes, the history has at most 64 entries, every entry
is 0 or 1, and `lostCount` is the number of 0 entries in the history, hence
not negative; the same count holds right after the eviction step of the next
cycle, for the entries that remain. -/
theorem C1_ring_invariant (userInterval : Int) (dials : List (Option Int))
    (ms : MonitorServer) (envs : List MonitorEnv) :
    ((pingWorker userInterval dials).history.length ≤ 64 ∧
      (∀ x ∈ (pingWorker userInterval dials).history, x = 0 ∨ x = 1) ∧
      (pingWorker userInterval dials).lostCount
        = ((pingWorker userInterval dials).history.count 0 : Int) ∧
      0 ≤ (pingWorker userInterval dials).lostCount ∧
      (pingEvict userInterval (pingWorker userInterval dials)).lostCount
        = ((pingEvict userInterval (pingWorker userInterval dials)).history.count 0 : Int)) ∧
    ((monitorWorker ms envs).history.length ≤ 64 ∧
      (∀ x ∈ (monitorWorker ms envs).history, x = 0 ∨ x = 1) ∧
      (monitorWorker ms envs).lostCount = ((monitorWorker ms envs).history.count 0 : Int) ∧
      0 ≤ (monitorWorker ms envs).lostCount ∧
      (monitorEvict (monitorWorker ms envs)).lostCount
        = ((monitorEvict (monitorWorker ms envs)).history.count 0 : Int)) := by
  have hp := pingWorker_inv userInterval dials
  have hm := monitorWorker_inv ms envs
  obtain ⟨p1, p2, p3⟩ := hp
  obtain ⟨m1, m2, m3⟩ := hm
  refine ⟨⟨p1, p2, p3, ?_, (pingEvict_inv userInterval _ ⟨p1, p2, p3⟩).2⟩,
    ⟨m1, m2, m3, ?_, (monitorEvict_inv _ ⟨m1, m2, m3⟩).2⟩⟩
  · rw [p3]; exact Int.natCast_nonneg _
  · rw [m3]; exact Int.natCast_nonneg _

/-! ### Loss rate of `pingWorker` -/

theorem pingEvict_lostRate (u : Int) (s : PingState) : (pingEvict u s).lostRate = s.lostRate := by
  unfold pingEvict; split <;> rfl

theorem pingRecord_lostRate (s : PingState) (d : Option Int) :
    (pingRecord s d).lostRate = s.lostRate := by
  cases d <;> rfl

theorem pingRecord_history (s : PingState) (d : Option Int) :
    (pingRecord s d).history = s.history ++ [pingEntry d] := by
  cases d <;> rfl

theorem pingPublish_history (s : PingState) : (pingPublish s).history = s.history := by
  unfold pingPublish; split <;> rfl

theorem pingPublish_lostCount (s : PingState) : (pingPublish s).lostCount = s.lostCount := by
  unfold pingPublish; split <;> rfl

theorem pingCycle_history (u : Int) (s : PingState) (d : Option Int) :
    (pingCycle u s d).history = (pingEvict u s).history ++ [pingEntry d] := by
  unfold pingCycle
  rw [pingPublish_history, pingRecord_history]

theorem pingWorker_snoc (u : Int) (ds : List (Option Int)) (d : Option Int) :
    pingWorker u (ds ++ [d]) = pingCycle u (pingWorker u ds) d := by
  unfold pingWorker
  rw [List.foldl_append]
  rfl

/-- While fewer than 64 cycles have run, the history is the full record of
the outcomes. -/
theorem pingWorker_history_short (u : Int) (dials : List (Option Int))
    (hlen : dials.length ≤ PingPacketHistoryLen) :
    (pingWorker u dials).history = dials.map pingEntry := by
  induction dials using List.reverseRecOn with
  | nil => rfl
  | append_singleton ds d ih =>
    have hds : ds.length < PingPacketHistoryLen := by
      simp at hlen; omega
    rw [pingWorker_snoc, pingCycle_history]
    have ih1 := ih (by omega)
    have hnot : ¬ (pingWorker u ds).history.length ≥ PingPacketHistoryLen := by
      rw [ih1]; simp; omega
    unfold pingEvict
    simp only [hnot, if_false]
    rw [ih1]
    simp

/-- After a cycle, the stored loss rate is fresh exactly when the history is
longer than half the capacity. -/
theorem pingCycle_lostRate (u : Int) (s : PingState) (d : Option Int) :
    (pingCycle u s d).lostRate =
      if (pingCycle u s d).history.length > PingPacketHistoryLen / 2 then
        some (fmul (fdiv (ofInt (pingCycle u s d).lostCount)
          (ofInt (pingCycle u s d).history.length)) 100)
      else s.lostRate := by
  unfold pingCycle
  rw [pingPublish_history, pingPublish_lostCount]
  unfold pingPublish
  split
  · rfl
  · rw [pingRecord_lostRate, pingEvict_lostRate]

theorem pingWorker_lostRate_none (u : Int) (dials : List (Option Int))
    (hlen : dials.length ≤ PingPacketHistoryLen / 2) :
    (pingWorker u dials).lostRate = none := by
  induction dials using List.reverseRecOn with
  | nil => rfl
  | append_singleton ds d ih =>
    have hl : (ds ++ [d]).length ≤ PingPacketHistoryLen := by
      have : PingPacketHistoryLen / 2 ≤ PingPacketHistoryLen := Nat.div_le_self _ _
      omega
    have hh := pingWorker_history_short u (ds ++ [d]) hl
    rw [pingWorker_snoc] at hh ⊢
    rw [pingCycle_lostRate, hh]
    have hnot : ¬ (List.map pingEntry (ds ++ [d])).length > PingPacketHistoryLen / 2 := by
      rw [List.length_map]; omega
    simp only [hnot, if_false]
    exact ih (by simp at hlen; omega)

/-- The history never shrinks below the number of cycles run, up to capacity. -/
theorem pingWorker_length (u : Int) (dials : List (Option Int)) :
    (pingWorker u dials).history.length = min dials.length PingPacketHistoryLen := by
  induction dials using List.reverseRecOn with
  | nil => rfl
  | append_singleton ds d ih =>
    rw [pingWorker_snoc, pingCycle_history]
    unfold pingEvict
    by_cases hfull : (pingWorker u ds).history.length ≥ PingPacketHistoryLen
    · simp only [hfull, if_true]
      simp only [List.length_append, List.length_tail, List.length_singleton]
      rw [ih] at hfull ⊢
      have : PingPacketHistoryLen = 64 := rfl
      simp only [this] at hfull ⊢
      omega
    · simp only [hfull, if_false]
      simp only [List.length_append, List.length_singleton]
      rw [ih] at hfull ⊢
      have : PingPacketHistoryLen = 64 := rfl
      simp only [this] at hfull ⊢
      omega

theorem lossRate_19_64 : fmul (fdiv (ofInt 19) (ofInt 64)) 100 = 19 / 64 * 100 := by
  decide!

/-- C2. `pingWorker` stores no loss rate while its history holds at most 32
entries; after every cycle that leaves more than 32 entries the stored rate
is the float64 value of `failures / len(history) * 100` for the current
history; after 64 cycles of which 19 failed it is `19/64*100`. -/
theorem C2_loss_rate (userInterval : Int) (dials : List (Option Int)) :
    ((pingWorker userInterval dials).history.length ≤ 32 →
      (pingWorker userInterval dials).lostRate = none) ∧
    ((pingWorker userInterval dials).history.length > 32 →
      (pingWorker userInterval dials).lostRate =
        some (fmul (fdiv (ofInt ((pingWorker userInterval dials).history.count 0))
          (ofInt (pingWorker userInterval dials).history.length)) 100)) ∧
    (dials.length = 64 → dials.count none = 19 →
      (pingWorker userInterval dials).lostRate = some (19 / 64 * 100)) := by
  have hlen := pingWorker_length userInterval dials
  have h64 : PingPacketHistoryLen = 64 := rfl
  have hmain : (pingWorker userInterval dials).history.length > 32 →
      (pingWorker userInterval dials).lostRate =
        some (fmul (fdiv (ofInt ((pingWorker userInterval dials).history.count 0))
          (ofInt (pingWorker userInterval dials).history.length)) 100) := by
    intro hgt
    have hcnt := (pingWorker_inv userInterval dials).2.2
    unfold failures at hcnt
    rw [← hcnt]
    induction dials using List.reverseRecOn with
    | nil => simp [pingWorker, pingInit] at hgt
    | append_singleton ds d _ =>
      rw [pingWorker_snoc] at hgt ⊢
      rw [pingCycle_lostRate]
      have : (pingCycle userInterval (pingWorker userInterval ds) d).history.length
          > PingPacketHistoryLen / 2 := by
        rw [h64]; exact hgt
      simp only [this, if_true]
  refine ⟨?_, hmain, ?_⟩
  · intro hle
    apply pingWorker_lostRate_none
    rw [hlen, h64] at hle
    rw [h64]
    have : min dials.length 64 ≤ 32 → dials.length ≤ 32 := by omega
    exact this hle
  · intro h1 h2
    have hh := pingWorker_history_short userInterval dials (by rw [h64]; omega)
    have hl : (pingWorker userInterval dials).history.length = 64 := by
      rw [hh, List.length_map, h1]
    have hc : (pingWorker userInterval dials).history.count 0 = 19 := by
      rw [hh, ← h2, List.count_eq_countP, List.count_eq_countP, List.countP_map]
      congr 1
      funext d
      cases d <;> simp [pingEntry]
    rw [hmain (by omega), hl, hc]
    exact congrArg some lossRate_19_64

/-- Witness for C2: a run of 64 cycles with 19 failures spread over it
publishes `19/64*100`. -/
theorem C2_loss_rate_witness :
    sampleDials.length = 64 ∧ sampleDials.count none = 19 ∧
      (pingWorker Second sampleDials).lostRate = some (19 / 64 * 100) :=
  ⟨by decide, by decide, (C2_loss_rate Second sampleDials).2.2 (by decide) (by decide)⟩

/-! ### Network rate -/

/-- C3, as stated, fails: one byte received in two seconds gives the stored
rate `0`, not the quotient `1/2`, because `netrx` is an `int64`. -/
theorem C3_counterexample :
    fsub 2 0 > 0 ∧
    (netSpeedUpdate { netrx := 0, nettx := 0, clock := 0, diff := 0, avgrx := 0, avgtx := 0 }
      1 1 2).netrx = 0 ∧
    ((netSpeedUpdate { netrx := 0, nettx := 0, clock := 0, diff := 0, avgrx := 0, avgtx := 0 }
      1 1 2).netrx : ℚ) ≠ ((1 : ℚ) - 0) / (2 - 0) := by
  refine ⟨by decide!, by decide!, ?_⟩
  have h : (netSpeedUpdate { netrx := 0, nettx := 0, clock := 0, diff := 0, avgrx := 0, avgtx := 0 }
      1 1 2).netrx = 0 := by decide!
  rw [h]
  norm_num

/-- C3, amended. For every stored state and every sample `(rx, tx, now)`:
when the float64 difference `now - clock` is not positive the rates keep
their values; when it is positive each rate is the int64 conversion of the
float64 quotient of the counter difference by that time difference, which,
as long as nothing leaves the int64 range, is the quotient truncated toward
zero; the clock and the counters are overwritten in both cases. -/
theorem C3_rate_update (s : NetSpeed) (rx tx : Int) (now : ℚ) :
    (fsub now s.clock ≤ 0 →
      (netSpeedUpdate s rx tx now).netrx = s.netrx ∧
      (netSpeedUpdate s rx tx now).nettx = s.nettx) ∧
    (fsub now s.clock > 0 →
      (netSpeedUpdate s rx tx now).netrx
        = toInt64 (fdiv (ofInt (wrap64 (rx - s.avgrx))) (fsub now s.clock)) ∧
      (netSpeedUpdate s rx tx now).nettx
        = toInt64 (fdiv (ofInt (wrap64 (tx - s.avgtx))) (fsub now s.clock))) ∧
    (fsub now s.clock > 0 → -(2 : Int) ^ 63 ≤ rx - s.avgrx → rx - s.avgrx < 2 ^ 63 →
      -(2 : Int) ^ 63 ≤ truncate (fdiv (ofInt (rx - s.avgrx)) (fsub now s.clock)) →
      truncate (fdiv (ofInt (rx - s.avgrx)) (fsub now s.clock)) < 2 ^ 63 →
      (netSpeedUpdate s rx tx now).netrx
        = truncate (fdiv (ofInt (rx - s.avgrx)) (fsub now s.clock))) ∧
    (netSpeedUpdate s rx tx now).clock = now ∧
    (netSpeedUpdate s rx tx now).avgrx = rx ∧
    (netSpeedUpdate s rx tx now).avgtx = tx := by
  refine ⟨?_, ?_, ?_, rfl, rfl, rfl⟩
  · intro h
    have hn : ¬ fsub now s.clock > 0 := not_lt.mpr h
    simp [netSpeedUpdate, hn]
  · intro h
    simp [netSpeedUpdate, h]
  · intro h h1 h2 h3 h4
    have hw : wrap64 (rx - s.avgrx) = rx - s.avgrx := by
      unfold wrap64; omega
    simp only [netSpeedUpdate, h, if_true, hw]
    unfold toInt64
    simp only [h3, h4, and_self, if_true]

/-- Witness for C3: 1000 bytes in three quarters of a second give 1333. -/
theorem C3_rate_update_witness :
    fsub (43 / 4) 10 > 0 ∧
    (netSpeedUpdate { netrx := 5, nettx := 5, clock := 10, diff := 0, avgrx := 0, avgtx := 0 }
      1000 3000 (43 / 4)).netrx = truncate (fdiv (ofInt (1000 - 0)) (fsub (43 / 4) 10)) ∧
    truncate (fdiv (ofInt (1000 - 0)) (fsub (43 / 4) 10)) = 1333 :=
  ⟨by decide!,
   (C3_rate_update { netrx := 5, nettx := 5, clock := 10, diff := 0, avgrx := 0, avgtx := 0 }
      1000 3000 (43 / 4)).2.2.1 (by decide!) (by decide) (by decide) (by decide!) (by decide!),
   by decide!⟩

/-! ### Online rate of `monitorWorker` -/

theorem monitorWorker_snoc (ms : MonitorServer) (es : List MonitorEnv) (e : MonitorEnv) :
    monitorWorker ms (es ++ [e]) = monitorCycle (monitorWorker ms es) e := by
  unfold monitorWorker
  rw [List.foldl_append]
  rfl

/-- Induction over the wake-ups of a `monitorWorker`. -/
theorem monitorWorker_induct (P : MonitorState → Prop) (ms : MonitorServer)
    (h0 : P (monitorInit ms)) (hstep : ∀ s env, P s → P (monitorCycle s env))
    (envs : List MonitorEnv) : P (monitorWorker ms envs) := by
  induction envs using List.reverseRecOn with
  | nil => exact h0
  | append_singleton es e ih =>
    rw [monitorWorker_snoc]
    exact hstep _ e ih

/-- A wake-up either leaves the state as it is, or only clears `running`, or
runs the body of the loop. -/
theorem monitorCycle_cases (s : MonitorState) (env : MonitorEnv) :
    monitorCycle s env = s ∨ monitorCycle s env = { s with running := false } ∨
    monitorCycle s env =
      monitorPublish (monitorRecord (monitorEvict s) (monitorCheck env.net s.ms.typ s.ms.host)) := by
  unfold monitorCycle
  split
  · exact Or.inl rfl
  · split
    · exact Or.inr (Or.inl rfl)
    · split
      · exact Or.inr (Or.inl rfl)
      · exact Or.inr (Or.inr rfl)

theorem monitorEvict_ms (s : MonitorState) : (monitorEvict s).ms = s.ms := by
  unfold monitorEvict; split <;> rfl

theorem monitorEvict_length (s : MonitorState) :
    (s.history.length < OnlinePacketHistoryLen → (monitorEvict s).history = s.history) ∧
    (s.history.length ≥ OnlinePacketHistoryLen →
      (monitorEvict s).history.length + 1 = s.history.length) := by
  unfold monitorEvict
  constructor
  · intro h
    have : ¬ s.history.length ≥ OnlinePacketHistoryLen := by omega
    simp only [this, if_false]
  · intro h
    simp only [h, if_true, List.length_tail]
    have : OnlinePacketHistoryLen = 64 := rfl
    omega

theorem monitorRecord_history (s : MonitorState) (r : CheckResult) :
    (monitorRecord s r).history = s.history ++ [if r.success then 1 else 0] := by
  unfold monitorRecord
  split <;> rfl

theorem monitorRecord_rate (s : MonitorState) (r : CheckResult) :
    (monitorRecord s r).ms.OnlineRate = s.ms.OnlineRate := by
  unfold monitorRecord
  split <;> rfl

theorem monitorPublish_history (s : MonitorState) : (monitorPublish s).history = s.history := by
  unfold monitorPublish; split <;> rfl

theorem monitorPublish_lostCount (s : MonitorState) :
    (monitorPublish s).lostCount = s.lostCount := by
  unfold monitorPublish; split <;> rfl

theorem monitorPublish_rate (s : MonitorState) :
    (monitorPublish s).ms.OnlineRate =
      if s.history.length > 5 then fsub 1 (fdiv (ofInt s.lostCount) (ofInt s.history.length))
      else s.ms.OnlineRate := by
  unfold monitorPublish; split <;> rfl

/-- What the cycles of a `monitorWorker` maintain about `OnlineRate`; `r0` is
the value the struct was created with. -/
theorem monitorWorker_rate (ms : MonitorServer) (envs : List MonitorEnv) :
    ((monitorWorker ms envs).history.length ≤ 5 →
      (monitorWorker ms envs).ms.OnlineRate = ms.OnlineRate) ∧
    ((monitorWorker ms envs).history.length > 5 →
      (monitorWorker ms envs).ms.OnlineRate =
        fsub 1 (fdiv (ofInt (monitorWorker ms envs).lostCount)
          (ofInt (monitorWorker ms envs).history.length))) := by
  refine monitorWorker_induct
    (fun s => (s.history.length ≤ 5 → s.ms.OnlineRate = ms.OnlineRate) ∧
      (s.history.length > 5 → s.ms.OnlineRate =
        fsub 1 (fdiv (ofInt s.lostCount) (ofInt s.history.length)))) ms ?_ ?_ envs
  · exact ⟨fun _ => rfl, fun h => by simp [monitorInit] at h⟩
  · intro s env ih
    rcases monitorCycle_cases s env with h | h | h
    · rw [h]; exact ih
    · rw [h]; exact ih
    · rw [h]
      set t := monitorRecord (monitorEvict s) (monitorCheck env.net s.ms.typ s.ms.host) with ht
      have hlen : t.history.length = (monitorEvict s).history.length + 1 := by
        rw [ht, monitorRecord_history]; simp
      have hrate : t.ms.OnlineRate = s.ms.OnlineRate := by
        rw [ht, monitorRecord_rate, monitorEvict_ms]
      rw [monitorPublish_history, monitorPublish_lostCount, monitorPublish_rate]
      constructor
      · intro hle
        have hnot : ¬ t.history.length > 5 := by omega
        simp only [hnot, if_false]
        rw [hrate]
        apply ih.1
        have h64 : OnlinePacketHistoryLen = 64 := rfl
        by_cases hfull : s.history.length ≥ OnlinePacketHistoryLen
        · have := (monitorEvict_length s).2 hfull
          omega
        · have := (monitorEvict_length s).1 (by omega)
          rw [this] at hlen
          omega
      · intro hgt
        simp only [hgt, if_true]

/-- The float64 value `1 - l/n` lies in the unit interval when `0 ≤ l ≤ n`
and `0 < n ≤ 2^53`. -/
theorem onlineRate_bounds (l n : Nat) (hl : l ≤ n) (hn : 0 < n) (hb : n ≤ 2 ^ 53) :
    0 ≤ fsub 1 (fdiv (ofInt l) (ofInt n)) ∧ fsub 1 (fdiv (ofInt l) (ofInt n)) ≤ 1 := by
  have hli : ofInt (l : Int) = (l : ℚ) := by
    unfold ofInt
    have := f64_intCast (l : Int) (by rw [abs_of_nonneg (Int.natCast_nonneg l)]; exact_mod_cast hl.trans hb)
    simpa using this
  have hni : ofInt (n : Int) = (n : ℚ) := by
    unfold ofInt
    have := f64_intCast (n : Int) (by rw [abs_of_nonneg (Int.natCast_nonneg n)]; exact_mod_cast hb)
    simpa using this
  rw [hli, hni]
  have hnq : (0 : ℚ) < n := by exact_mod_cast hn
  have hq0 : (0 : ℚ) ≤ (l : ℚ) / n := div_nonneg (by exact_mod_cast Nat.zero_le l) hnq.le
  have hq1 : (l : ℚ) / n ≤ 1 := by
    rw [div_le_one hnq]; exact_mod_cast hl
  obtain ⟨d0, d1⟩ := f64_unit_interval hq0 hq1
  unfold fsub fdiv
  exact f64_unit_interval (by linarith) (by linarith)

/-- C8. A worker started for a configuration stanza leaves `OnlineRate` at
its initial value 0 while its history holds at most 5 samples; after every
cycle in which the history holds more than 5 samples, `OnlineRate` is the
float64 value `1 - failures / len(history)` for the current history, and it
lies between 0 and 1. -/
theorem C8_online_rate (cfg : MonitorConfig) (envs : List MonitorEnv) :
    ((monitorWorker (newMonitorServer cfg) envs).history.length ≤ 5 →
      (monitorWorker (newMonitorServer cfg) envs).ms.OnlineRate = 0) ∧
    ((monitorWorker (newMonitorServer cfg) envs).history.length > 5 →
      (monitorWorker (newMonitorServer cfg) envs).ms.OnlineRate =
        fsub 1 (fdiv (ofInt ((monitorWorker (newMonitorServer cfg) envs).history.count 0))
          (ofInt (monitorWorker (newMonitorServer cfg) envs).history.length)) ∧
      0 ≤ (monitorWorker (newMonitorServer cfg) envs).ms.OnlineRate ∧
      (monitorWorker (newMonitorServer cfg) envs).ms.OnlineRate ≤ 1) := by
  obtain ⟨h1, h2⟩ := monitorWorker_rate (newMonitorServer cfg) envs
  obtain ⟨i1, _, i3⟩ := monitorWorker_inv (newMonitorServer cfg) envs
  unfold failures at i3
  refine ⟨fun h => h1 h, fun h => ?_⟩
  have heq := h2 h
  rw [i3] at heq
  refine ⟨heq, ?_⟩
  rw [heq]
  have hlen64 : (monitorWorker (newMonitorServer cfg) envs).history.length ≤ 64 := i1
  exact onlineRate_bounds _ _ (List.count_le_length 0 _) (by omega)
    (le_trans hlen64 (by norm_num))

/-- Witness for C8: seven checks, two of them failed. -/
theorem C8_online_rate_witness :
    (monitorWorker (newMonitorServer m1Config) sampleEnvs).history.length = 7 ∧
    (monitorWorker (newMonitorServer m1Config) sampleEnvs).history.count 0 = 2 ∧
    (monitorWorker (newMonitorServer m1Config) sampleEnvs).ms.OnlineRate =
      fsub 1 (fdiv (ofInt 2) (ofInt 7)) ∧
    0 ≤ (monitorWorker (newMonitorServer m1Config) sampleEnvs).ms.OnlineRate ∧
    (monitorWorker (newMonitorServer m1Config) sampleEnvs).ms.OnlineRate ≤ 1 :=
  ⟨by decide, by decide,
   ((C8_online_rate m1Config sampleEnvs).2 (by decide)).1,
   ((C8_online_rate m1Config sampleEnvs).2 (by decide)).2⟩

/-! ### Unknown protocol -/

theorem monitorCheck_unknown (net : CheckResult) (protocol host : GoString)
    (h1 : protocol ≠ "tcp".toList) (h2 : protocol ≠ "http".toList)
    (h3 : protocol ≠ "https".toList) :
    monitorCheck net protocol host =
      { success := false, dnsTime := 0, connectTime := 0, downloadTime := 0 } := by
  unfold monitorCheck
  have h23 : ¬ (protocol = "http".toList ∨ protocol = "https".toList) := by
    rintro (h | h)
    · exact h2 h
    · exact h3 h
  rw [if_neg h23, if_neg h1]

theorem fsub_one_fdiv_self (n : Nat) (hn : 0 < n) (hb : n ≤ 2 ^ 53) :
    fsub 1 (fdiv (ofInt n) (ofInt n)) = 0 := by
  have hni : ofInt (n : Int) = (n : ℚ) := by
    unfold ofInt
    have := f64_intCast (n : Int)
      (by rw [abs_of_nonneg (Int.natCast_nonneg n)]; exact_mod_cast hb)
    simpa using this
  have hnq : (n : ℚ) ≠ 0 := by exact_mod_cast hn.ne'
  unfold fsub fdiv
  rw [hni, div_self hnq, f64_one, sub_self, f64_zero]

/-- C9. For a protocol string other than "tcp", "http" and "https",
`monitorCheck` returns `(false, 0, 0, 0)` whatever the host and the network;
a worker started for a stanza of such a type has only failures in its
history, its three timings stay 0 and its `OnlineRate` is 0 after every
cycle. -/
theorem C9_unknown_protocol (protocol : GoString)
    (h1 : protocol ≠ "tcp".toList) (h2 : protocol ≠ "http".toList)
    (h3 : protocol ≠ "https".toList) :
    (∀ (net : CheckResult) (host : GoString),
      monitorCheck net protocol host =
        { success := false, dnsTime := 0, connectTime := 0, downloadTime := 0 }) ∧
    (∀ (cfg : MonitorConfig) (envs : List MonitorEnv), cfg.Typ = protocol →
      (∀ x ∈ (monitorWorker (newMonitorServer cfg) envs).history, x = 0) ∧
      (monitorWorker (newMonitorServer cfg) envs).lostCount
        = ((monitorWorker (newMonitorServer cfg) envs).history.length : Int) ∧
      (monitorWorker (newMonitorServer cfg) envs).ms.DnsTime = 0 ∧
      (monitorWorker (newMonitorServer cfg) envs).ms.ConnectTime = 0 ∧
      (monitorWorker (newMonitorServer cfg) envs).ms.DownloadTime = 0 ∧
      (monitorWorker (newMonitorServer cfg) envs).ms.OnlineRate = 0) := by
  refine ⟨fun net host => monitorCheck_unknown net protocol host h1 h2 h3, ?_⟩
  intro cfg envs hty
  have hinv : (monitorWorker (newMonitorServer cfg) envs).ms.typ = protocol ∧
      (∀ x ∈ (monitorWorker (newMonitorServer cfg) envs).history, x = 0) ∧
      (monitorWorker (newMonitorServer cfg) envs).ms.DnsTime = 0 ∧
      (monitorWorker (newMonitorServer cfg) envs).ms.ConnectTime = 0 ∧
      (monitorWorker (newMonitorServer cfg) envs).ms.DownloadTime = 0 := by
    refine monitorWorker_induct
      (fun s => s.ms.typ = protocol ∧ (∀ x ∈ s.history, x = 0) ∧ s.ms.DnsTime = 0 ∧
        s.ms.ConnectTime = 0 ∧ s.ms.DownloadTime = 0) (newMonitorServer cfg) ?_ ?_ envs
    · exact ⟨hty, by simp [monitorInit], rfl, rfl, rfl⟩
    · intro s env ih
      rcases monitorCycle_cases s env with h | h | h
      · rw [h]; exact ih
      · rw [h]; exact ih
      · rw [h]
        obtain ⟨t1, t2, t3, t4, t5⟩ := ih
        rw [t1, monitorCheck_unknown env.net protocol s.ms.host h1 h2 h3]
        have hev : (monitorEvict s).ms = s.ms := monitorEvict_ms s
        have hevh : ∀ x ∈ (monitorEvict s).history, x = 0 := by
          intro x hx
          apply t2
          unfold monitorEvict at hx
          split at hx
          · exact List.mem_of_mem_tail hx
          · exact hx
        have hrec : monitorRecord (monitorEvict s)
            { success := false, dnsTime := 0, connectTime := 0, downloadTime := 0 } =
            { monitorEvict s with
              lostCount := (monitorEvict s).lostCount + 1
              history := (monitorEvict s).history ++ [0] } := by
          simp [monitorRecord]
        rw [hrec]
        unfold monitorPublish
        split
        · refine ⟨by simpa [hev] using t1, ?_, by simpa [hev] using t3,
            by simpa [hev] using t4, by simpa [hev] using t5⟩
          intro x hx
          rcases List.mem_append.mp hx with hx | hx
          · exact hevh x hx
          · simpa using hx
        · refine ⟨by simpa [hev] using t1, ?_, by simpa [hev] using t3,
            by simpa [hev] using t4, by simpa [hev] using t5⟩
          intro x hx
          rcases List.mem_append.mp hx with hx | hx
          · exact hevh x hx
          · simpa using hx
  obtain ⟨_, a2, a3, a4, a5⟩ := hinv
  obtain ⟨i1, _, i3⟩ := monitorWorker_inv (newMonitorServer cfg) envs
  have hcount : failures (monitorWorker (newMonitorServer cfg) envs).history
      = (monitorWorker (newMonitorServer cfg) envs).history.length := by
    unfold failures
    rw [List.count_eq_length]
    intro x hx
    exact (a2 x hx).symm
  have hlc : (monitorWorker (newMonitorServer cfg) envs).lostCount
      = ((monitorWorker (newMonitorServer cfg) envs).history.length : Int) := by
    rw [i3, hcount]
  refine ⟨a2, hlc, a3, a4, a5, ?_⟩
  obtain ⟨r1, r2⟩ := monitorWorker_rate (newMonitorServer cfg) envs
  by_cases hlen : (monitorWorker (newMonitorServer cfg) envs).history.length ≤ 5
  · exact r1 hlen
  · rw [r2 (by omega), hlc]
    have hlen64 : (monitorWorker (newMonitorServer cfg) envs).history.length ≤ 64 := i1
    exact fsub_one_fdiv_self _ (by omega) (le_trans hlen64 (by norm_num))

/-- Witness for C9: a monitor of type "unknown". -/
theorem C9_unknown_protocol_witness :
    (∀ (net : CheckResult) (host : GoString),
      monitorCheck net "unknown".toList host =
        { success := false, dnsTime := 0, connectTime := 0, downloadTime := 0 }) ∧
    (monitorWorker (newMonitorServer unknownConfig) sampleEnvs).history = [0, 0, 0, 0, 0, 0, 0] ∧
    (monitorWorker (newMonitorServer unknownConfig) sampleEnvs).ms.OnlineRate = 0 :=
  ⟨(C9_unknown_protocol "unknown".toList (by decide) (by decide) (by decide)).1,
   by decide,
   ((C9_unknown_protocol "unknown".toList (by decide) (by decide) (by decide)).2
      unknownConfig sampleEnvs rfl).2.2.2.2.2⟩
/-! ### Authentication -/

/-- The function `handleAuth` with its two markers and the credentials line
as parameters. -/
theorem handleAuth_spec (m1 m2 creds : GoString) (conn : Conn)
    (out : Bool × Conn)
    (hout : out =
      (match conn.Read with
      | (r1, c1) =>
        if (r1.err || !contains r1.data m1) = true then (false, c1)
        else
          match c1.Write creds with
          | (werr, c2) =>
            if werr = true then (false, c2)
            else
              match c2.Read with
              | (r2, c3) =>
                if (r2.err || !contains r2.data m2) = true then (false, c3) else (true, c3))) :
    (out.1 = true ↔
      ∃ r1 r2 rest ws, conn.reads = r1 :: r2 :: rest ∧ conn.writes = true :: ws ∧
        r1.err = false ∧ contains r1.data m1 = true ∧
        r2.err = false ∧ contains r2.data m2 = true) ∧
    ((¬ ∃ r1 rest, conn.reads = r1 :: rest ∧ r1.err = false ∧ contains r1.data m1 = true) →
      out.2.sent = conn.sent) ∧
    ((∃ r1 rest, conn.reads = r1 :: rest ∧ r1.err = false ∧ contains r1.data m1 = true) →
      out.2.sent = conn.sent ++ [creds]) := by
  subst hout
  obtain ⟨reads, writes, sent⟩ := conn
  cases reads with
  | nil => simp [Conn.Read]
  | cons r1 rs =>
    cases h1 : r1.err <;> cases h2 : contains r1.data m1
    · simp [Conn.Read, h1, h2]
      intro x _ hx _ _ _ _ _ hc
      subst hx
      rw [h2] at hc
      exact absurd hc (by decide)
    · cases writes with
      | nil => simp [Conn.Read, Conn.Write, h1, h2]
      | cons w ws =>
        cases w with
        | false => simp [Conn.Read, Conn.Write, h1, h2]
        | true =>
          cases rs with
          | nil => simp [Conn.Read, Conn.Write, h1, h2]
          | cons r2 rest =>
            cases h3 : r2.err <;> cases h4 : contains r2.data m2 <;>
              simp [Conn.Read, Conn.Write, h1, h2, h3, h4]
            exact ⟨r1, r2, ⟨rfl, rfl⟩, h1, h2, h3, h4⟩
    · simp [Conn.Read, h1, h2]
      intro x _ hx _ _ _ _ he
      subst hx
      rw [h1] at he
      exact absurd he (by decide)
    · simp [Conn.Read, h1, h2]
      intro x _ hx _ _ _ _ he
      subst hx
      rw [h1] at he
      exact absurd he (by decide)

/-- C6. `handleAuth` returns true exactly when the first read succeeds with
data containing "Authentication required", the write of the credentials
succeeds, and the second read succeeds with data containing "Authentication
successful". When the greeting read fails or lacks the marker nothing is
written; otherwise `user + ":" + password + "\n"` is written, once. -/
theorem C6_handleAuth (user password : GoString) (conn : Conn) :
    ((handleAuth user password conn).1 = true ↔
      ∃ r1 r2 rest ws, conn.reads = r1 :: r2 :: rest ∧ conn.writes = true :: ws ∧
        r1.err = false ∧ contains r1.data "Authentication required".toList = true ∧
        r2.err = false ∧ contains r2.data "Authentication successful".toList = true) ∧
    ((¬ ∃ r1 rest, conn.reads = r1 :: rest ∧ r1.err = false ∧
        contains r1.data "Authentication required".toList = true) →
      (handleAuth user password conn).2.sent = conn.sent) ∧
    ((∃ r1 rest, conn.reads = r1 :: rest ∧ r1.err = false ∧
        contains r1.data "Authentication required".toList = true) →
      (handleAuth user password conn).2.sent
        = conn.sent ++ [user ++ ":".toList ++ password ++ "\n".toList]) :=
  handleAuth_spec _ _ _ conn _ rfl

/-- Witness for C6: a peer that accepts the credentials `u:p`. -/
theorem C6_handleAuth_witness :
    (handleAuth "u".toList "p".toList (scriptedPeer [])).1 = true ∧
    (handleAuth "u".toList "p".toList (scriptedPeer [])).2.sent = [] ++ ["u:p\n".toList] :=
  ⟨(C6_handleAuth "u".toList "p".toList (scriptedPeer [])).1.mpr
      ⟨_, _, _, _, rfl, rfl, rfl, by decide, rfl, by decide⟩,
   (C6_handleAuth "u".toList "p".toList (scriptedPeer [])).2.2
      ⟨_, _, rfl, rfl, by decide⟩⟩

/-! ### Go string functions -/

theorem isPrefixOf_iff (sub s : GoString) : sub.isPrefixOf s = true ↔ sub <+: s :=
  List.isPrefixOf_iff_prefix

theorem indexFrom_nonneg_iff (sub s : GoString) (i : Nat) :
    0 ≤ indexFrom sub s i ↔ sub <:+: s := by
  induction s generalizing i with
  | nil =>
    unfold indexFrom
    by_cases h : sub.isPrefixOf [] = true
    · rw [if_pos h]
      exact ⟨fun _ => ((isPrefixOf_iff _ _).mp h).isInfix, fun _ => Int.natCast_nonneg i⟩
    · rw [if_neg h]
      constructor
      · intro hc; omega
      · intro hin
        exfalso; apply h
        rw [isPrefixOf_iff]
        have : sub = [] := List.eq_nil_of_infix_nil hin
        rw [this]
  | cons c cs ih =>
    unfold indexFrom
    by_cases h : sub.isPrefixOf (c :: cs) = true
    · rw [if_pos h]
      exact ⟨fun _ => ((isPrefixOf_iff _ _).mp h).isInfix, fun _ => Int.natCast_nonneg i⟩
    · rw [if_neg h, ih, List.infix_cons_iff]
      constructor
      · exact Or.inr
      · rintro (hp | hi)
        · exact absurd ((isPrefixOf_iff _ _).mpr hp) h
        · exact hi

/-- `strings.Contains(s, sub)` holds exactly when `sub` is a contiguous part
of `s`. -/
theorem contains_iff (s sub : GoString) : contains s sub = true ↔ sub <:+: s := by
  unfold contains index
  rw [decide_eq_true_iff]
  exact indexFrom_nonneg_iff sub s 0

theorem lastIndexFrom_ge_best (sub s : GoString) (i : Nat) (best : Int) (hb : best ≤ i) :
    best ≤ lastIndexFrom sub s i best := by
  induction s generalizing i best with
  | nil => unfold lastIndexFrom; split <;> omega
  | cons c cs ih =>
    unfold lastIndexFrom
    split
    · have := ih (i + 1) (i : Int) (by push_cast; omega)
      omega
    · exact ih (i + 1) best (by push_cast; omega)

theorem lastIndexFrom_ge_indexFrom (sub s : GoString) (i : Nat) (best : Int) (hb : best ≤ i)
    (h : 0 ≤ indexFrom sub s i) : indexFrom sub s i ≤ lastIndexFrom sub s i best := by
  induction s generalizing i best with
  | nil =>
    unfold indexFrom at h ⊢
    unfold lastIndexFrom
    by_cases hp : sub.isPrefixOf [] = true
    · rw [if_pos hp, if_pos hp]
    · rw [if_neg hp] at h
      omega
  | cons c cs ih =>
    unfold indexFrom at h ⊢
    unfold lastIndexFrom
    by_cases hp : sub.isPrefixOf (c :: cs) = true
    · rw [if_pos hp, if_pos hp]
      exact lastIndexFrom_ge_best sub cs (i + 1) i (by push_cast; omega)
    · rw [if_neg hp] at h
      rw [if_neg hp, if_neg hp]
      exact ih (i + 1) best (by push_cast; omega) h

/-- In a string that contains `sub`, the last occurrence is not before the
first. -/
theorem index_le_lastIndex (s sub : GoString) (h : contains s sub = true) :
    0 ≤ index s sub ∧ index s sub ≤ lastIndex s sub := by
  have h0 : 0 ≤ index s sub := by
    unfold contains at h
    exact of_decide_eq_true h
  exact ⟨h0, lastIndexFrom_ge_indexFrom sub s 0 (-1) (by norm_num) h0⟩

/-! ### Family marker -/

/-- C5, as stated, fails: a block with both markers is accepted (the check
for "IPv4" comes first), and `connect` goes on to `sendStatusLoop`. -/
theorem C5_counterexample :
    contains "IPv4 IPv6".toList "IPv4".toList = true ∧
    contains "IPv4 IPv6".toList "IPv6".toList = true ∧
    (handleMonitorConfig (fun _ => none)
      { reads := [{ data := "IPv4 IPv6".toList, err := false }], writes := [], sent := [] }
      []).result = ConfigResult.ok 6 ∧
    (connect (fun _ => none) "u".toList "p".toList
      (some (scriptedPeer "IPv4 IPv6".toList)) []).result = ConnectResult.reporting 6 := by
  refine ⟨by decide, by decide, by decide, by decide⟩

theorem handleMonitorConfig_unfold (unmarshal : GoString → Option MonitorConfig)
    (r : ReadResult) (rest : List ReadResult) (writes : List Bool) (sent : List GoString)
    (servers : Registry) (m4 m6 : GoString) (h4 : m4 = "IPv4".toList) (h6 : m6 = "IPv6".toList) :
    handleMonitorConfig unmarshal { reads := r :: rest, writes := writes, sent := sent } servers =
      if r.err = true then
        { result := ConfigResult.readError, conn := { reads := rest, writes := writes, sent := sent },
          servers := servers, spawned := [] }
      else if contains r.data m4 = true ∨ contains r.data m6 = true then
        { result :=
            if (configLoop unmarshal (split '\n' r.data)
                { servers := [], spawned := [], panicked := false }).panicked = true
            then ConfigResult.panicked
            else ConfigResult.ok (if contains r.data m4 = true then 6 else 4),
          conn := { reads := rest, writes := writes, sent := sent },
          servers := (configLoop unmarshal (split '\n' r.data)
                { servers := [], spawned := [], panicked := false }).servers,
          spawned := (configLoop unmarshal (split '\n' r.data)
                { servers := [], spawned := [], panicked := false }).spawned }
      else
        { result := ConfigResult.unknownFamily,
          conn := { reads := rest, writes := writes, sent := sent },
          servers := servers, spawned := [] } := by
  unfold handleMonitorConfig Conn.Read
  simp only
  rw [← h4, ← h6]
  cases he : r.err <;> cases c4 : contains r.data m4 <;> cases c6 : contains r.data m6 <;> simp

theorem connect_auth_ok (unmarshal : GoString → Option MonitorConfig) (user password : GoString)
    (conn0 conn : Conn) (servers : Registry) (h : handleAuth user password conn0 = (true, conn)) :
    (connect unmarshal user password (some conn0) servers).result =
      (match (handleMonitorConfig unmarshal conn servers).result with
        | ConfigResult.ok ip => ConnectResult.reporting ip
        | ConfigResult.panicked => ConnectResult.panicked
        | _ => ConnectResult.configFailed) ∧
    (connect unmarshal user password (some conn0) servers).servers =
      (handleMonitorConfig unmarshal conn servers).servers ∧
    (connect unmarshal user password (some conn0) servers).spawned =
      (handleMonitorConfig unmarshal conn servers).spawned := by
  unfold connect
  simp only [h]
  cases (handleMonitorConfig unmarshal conn servers).result <;> simp

/-- C5, amended. `handleMonitorConfig` succeeds only when the block it read
contains at least one of the markers "IPv4" and "IPv6"; for every block that
contains neither it returns the unknown-family error, and `connect` returns
without calling `sendStatusLoop`. -/
theorem C5_family_marker (unmarshal : GoString → Option MonitorConfig) (conn : Conn)
    (servers : Registry) :
    (∀ ip, (handleMonitorConfig unmarshal conn servers).result = ConfigResult.ok ip →
      ∃ r rest, conn.reads = r :: rest ∧ r.err = false ∧
        (contains r.data "IPv4".toList = true ∨ contains r.data "IPv6".toList = true)) ∧
    (∀ r rest, conn.reads = r :: rest → r.err = false →
      contains r.data "IPv4".toList = false → contains r.data "IPv6".toList = false →
      (handleMonitorConfig unmarshal conn servers).result = ConfigResult.unknownFamily ∧
      ∀ user password conn0, handleAuth user password conn0 = (true, conn) →
        (connect unmarshal user password (some conn0) servers).result
          = ConnectResult.configFailed) := by
  obtain ⟨reads, writes, sent⟩ := conn
  constructor
  · intro ip hok
    cases reads with
    | nil => simp [handleMonitorConfig, Conn.Read] at hok
    | cons r rest =>
      rw [handleMonitorConfig_unfold unmarshal r rest writes sent servers _ _ rfl rfl] at hok
      refine ⟨r, rest, rfl, ?_, ?_⟩
      · cases he : r.err
        · rfl
        · rw [if_pos he] at hok
          exact absurd hok (by simp)
      · by_contra hno
        cases he : r.err
        · rw [if_neg (by simp [he]), if_neg hno] at hok
          exact absurd hok (by simp)
        · rw [if_pos he] at hok
          exact absurd hok (by simp)
  · intro r rest hreads herr h4 h6
    simp only at hreads
    subst hreads
    have hres : (handleMonitorConfig unmarshal
        { reads := r :: rest, writes := writes, sent := sent } servers).result
        = ConfigResult.unknownFamily := by
      rw [handleMonitorConfig_unfold unmarshal r rest writes sent servers _ _ rfl rfl]
      have hno : ¬ (contains r.data "IPv4".toList = true ∨ contains r.data "IPv6".toList = true) := by
        rw [h4, h6]; simp
      rw [if_neg (by simp [herr]), if_neg hno]
    refine ⟨hres, ?_⟩
    intro user password conn0 hauth
    rw [(connect_auth_ok unmarshal user password conn0 _ servers hauth).1, hres]

/-- Witness for C5: a block without a family marker. -/
theorem C5_family_marker_witness :
    (handleMonitorConfig sampleUnmarshal
      { reads := [{ data := "hello".toList, err := false }], writes := [],
        sent := ["u:p\n".toList] } []).result = ConfigResult.unknownFamily ∧
    (connect sampleUnmarshal "u".toList "p".toList (some (scriptedPeer "hello".toList)) []).result
      = ConnectResult.configFailed :=
  ⟨((C5_family_marker sampleUnmarshal
      { reads := [{ data := "hello".toList, err := false }], writes := [],
        sent := ["u:p\n".toList] } []).2 _ _ rfl rfl (by decide) (by decide)).1,
   ((C5_family_marker sampleUnmarshal
      { reads := [{ data := "hello".toList, err := false }], writes := [],
        sent := ["u:p\n".toList] } []).2 _ _ rfl rfl (by decide) (by decide)).2
      "u".toList "p".toList (scriptedPeer "hello".toList) (by decide)⟩

/-! ### Registry reload -/

/-- Reading a map after the assignment `m[k] = v`. -/
theorem Registry.get_set (m : Registry) (k : GoString) (v : MonitorServer) (k' : GoString) :
    (m.set k v).get k' = if k' = k then some v else m.get k' := by
  unfold Registry.set Registry.get
  by_cases h : k' = k
  · subst h
    simp
  · have hk : ¬ k = k' := fun e => h e.symm
    simp only [List.find?_cons, hk, decide_False, if_neg h, List.find?_filter]
    congr 2
    funext e
    by_cases he : e.1 = k'
    · have : e.1 ≠ k := by rw [he]; exact h
      simp [he, h]
    · simp [he]

theorem Registry.keys_set (m : Registry) (k : GoString) (v : MonitorServer) :
    (m.set k v).map (fun e => e.1) = k :: (m.map (fun e => e.1)).filter (fun x => x ≠ k) := by
  unfold Registry.set
  simp only [List.map_cons, List.filter_map]
  rfl

/-- The map built by registering the stanzas `cs`, in order, on top of `m`. -/
theorem regFold_get (cs : List MonitorConfig) (m : Registry) (name : GoString) :
    (cs.foldl (fun (m : Registry) c => m.set c.Name (newMonitorServer c)) m).get name =
      match cs.reverse.find? (fun c => c.Name = name) with
      | some c => some (newMonitorServer c)
      | none => m.get name := by
  induction cs generalizing m with
  | nil => rfl
  | cons c cs ih =>
    rw [List.foldl_cons, ih, List.reverse_cons, List.find?_append]
    cases hfind : cs.reverse.find? (fun c => decide (c.Name = name)) with
    | some d => rfl
    | none =>
      simp only [Option.none_or, List.find?_cons, List.find?_nil]
      rw [Registry.get_set]
      by_cases h : c.Name = name
      · simp [h]
      · have h' : ¬ name = c.Name := fun e => h e.symm
        simp [h, h']

theorem regFold_keys (cs : List MonitorConfig) (m : Registry)
    (hm : (m.map (fun e => e.1)).Nodup) :
    ((cs.foldl (fun (m : Registry) c => m.set c.Name (newMonitorServer c)) m).map
        (fun e => e.1)).Nodup ∧
    ∀ k, k ∈ (cs.foldl (fun (m : Registry) c => m.set c.Name (newMonitorServer c)) m).map
        (fun e => e.1) ↔ (k ∈ m.map (fun e => e.1) ∨ k ∈ cs.map (fun c => c.Name)) := by
  induction cs generalizing m with
  | nil => simp [hm]
  | cons c cs ih =>
    rw [List.foldl_cons]
    have hn : ((m.set c.Name (newMonitorServer c)).map (fun e => e.1)).Nodup := by
      rw [Registry.keys_set]
      refine List.nodup_cons.mpr ⟨?_, hm.filter _⟩
      simp
    obtain ⟨i1, i2⟩ := ih _ hn
    refine ⟨i1, fun k => ?_⟩
    rw [i2, Registry.keys_set]
    simp only [List.mem_cons, List.mem_filter, List.map_cons, decide_eq_true_eq]
    by_cases hk : k = c.Name
    · simp [hk]
    · simp [hk]

/-- On a line that does not panic, the loop body registers exactly the stanza
that the line carries. -/
theorem processLine_eq (unmarshal : GoString → Option MonitorConfig) (line : GoString)
    (hp : processLine unmarshal line ≠ LineStep.panic) :
    processLine unmarshal line =
      match stanzaOf unmarshal line with
      | some cfg => LineStep.register cfg
      | none => LineStep.skip := by
  unfold processLine at hp ⊢
  unfold stanzaOf
  by_cases hc : (contains line "monitor".toList && contains line "type".toList
      && contains line "\x7b".toList && contains line "\x7d".toList) = true
  · rw [if_pos hc] at hp ⊢
    rw [if_pos hc]
    have hparts : contains line "\x7b".toList = true ∧ contains line "\x7d".toList = true := by
      simp only [Bool.and_eq_true] at hc
      exact ⟨hc.1.2, hc.2⟩
    obtain ⟨o1, _⟩ := index_le_lastIndex line _ hparts.1
    obtain ⟨c1, c2⟩ := index_le_lastIndex line _ hparts.2
    have hguard : ¬ (index line "\x7b".toList = -1 ∨ lastIndex line "\x7d".toList + 1 = 0) := by
      omega
    simp only [hguard, if_false] at hp ⊢
    cases hs : slice line (index line "\x7b".toList) (lastIndex line "\x7d".toList + 1) with
    | none => rw [hs] at hp; exact absurd rfl hp
    | some text =>
      simp only [Option.bind]
      cases unmarshal text <;> rfl
  · rw [if_neg hc, if_neg hc]

theorem configLoop_panicked (unmarshal : GoString → Option MonitorConfig)
    (lines : List GoString) (st : LoopState) (h : st.panicked = true) :
    (configLoop unmarshal lines st).panicked = true := by
  induction lines generalizing st with
  | nil => exact h
  | cons l ls ih =>
    unfold configLoop
    cases processLine unmarshal l with
    | skip => exact ih st h
    | panic => rfl
    | register cfg => exact ih _ h

/-- A loop that ends without a panic has registered, in order, the stanzas
of the lines, and started one worker for each. -/
theorem configLoop_ok (unmarshal : GoString → Option MonitorConfig)
    (lines : List GoString) (st : LoopState)
    (h : (configLoop unmarshal lines st).panicked = false) :
    (configLoop unmarshal lines st).servers =
      (lines.filterMap (stanzaOf unmarshal)).foldl
        (fun (m : Registry) c => m.set c.Name (newMonitorServer c)) st.servers ∧
    (configLoop unmarshal lines st).spawned =
      st.spawned ++ (lines.filterMap (stanzaOf unmarshal)).map
        (fun c => (c.Name, newMonitorServer c)) := by
  induction lines generalizing st with
  | nil => simp [configLoop]
  | cons l ls ih =>
    have hnp : processLine unmarshal l ≠ LineStep.panic := by
      intro hp
      unfold configLoop at h
      rw [hp] at h
      simp at h
    have heq := processLine_eq unmarshal l hnp
    unfold configLoop at h ⊢
    cases hst : stanzaOf unmarshal l with
    | none =>
      rw [hst] at heq
      rw [heq] at h ⊢
      simp only [List.filterMap_cons, hst]
      exact ih st h
    | some cfg =>
      rw [hst] at heq
      rw [heq] at h ⊢
      simp only [List.filterMap_cons, hst, List.foldl_cons, List.map_cons]
      obtain ⟨i1, i2⟩ := ih _ h
      refine ⟨i1, ?_⟩
      rw [i2]
      simp

/-- C4. When `handleMonitorConfig` accepts a block, the map afterwards is
determined by the stanzas of the block alone, whatever it held before: under
each name it holds the entry (type, host, interval) of the last stanza of that
name, the keys are exactly the names of the stanzas, one entry per name, and
one worker was started per stanza. A line that does not decode contributes
no stanza and the lines after it are still registered; two stanzas with
distinct names, next to any malformed lines, give exactly 2 entries. -/
theorem C4_registry_reload (unmarshal : GoString → Option MonitorConfig) (conn : Conn)
    (servers : Registry) (ip : Int) (r : ReadResult) (rest : List ReadResult)
    (hread : conn.reads = r :: rest)
    (hok : (handleMonitorConfig unmarshal conn servers).result = ConfigResult.ok ip) :
    (∀ name, (handleMonitorConfig unmarshal conn servers).servers.get name =
      ((parsedStanzas unmarshal r.data).reverse.find? (fun c => c.Name = name)).map
        newMonitorServer) ∧
    ((handleMonitorConfig unmarshal conn servers).servers.map (fun e => e.1)).Nodup ∧
    (∀ name, name ∈ (handleMonitorConfig unmarshal conn servers).servers.map (fun e => e.1) ↔
      name ∈ (parsedStanzas unmarshal r.data).map (fun c => c.Name)) ∧
    (handleMonitorConfig unmarshal conn servers).servers.length =
      ((parsedStanzas unmarshal r.data).map (fun c => c.Name)).dedup.length ∧
    (handleMonitorConfig unmarshal conn servers).spawned =
      (parsedStanzas unmarshal r.data).map (fun c => (c.Name, newMonitorServer c)) ∧
    (∀ a b, parsedStanzas unmarshal r.data = [a, b] → a.Name ≠ b.Name →
      (handleMonitorConfig unmarshal conn servers).servers.length = 2) := by
  obtain ⟨reads, writes, sent⟩ := conn
  simp only at hread
  subst hread
  rw [handleMonitorConfig_unfold unmarshal r rest writes sent servers _ _ rfl rfl] at hok ⊢
  by_cases he : r.err = true
  · rw [if_pos he] at hok
    exact absurd hok (by simp)
  rw [if_neg he] at hok ⊢
  by_cases hm : contains r.data "IPv4".toList = true ∨ contains r.data "IPv6".toList = true
  swap
  · rw [if_neg hm] at hok
    exact absurd hok (by simp)
  rw [if_pos hm] at hok ⊢
  simp only at hok ⊢
  have hnp : (configLoop unmarshal (split '\n' r.data)
      { servers := [], spawned := [], panicked := false }).panicked = false := by
    cases hp : (configLoop unmarshal (split '\n' r.data)
      { servers := [], spawned := [], panicked := false }).panicked
    · rfl
    · rw [hp] at hok
      simp at hok
  obtain ⟨s1, s2⟩ := configLoop_ok unmarshal _ _ hnp
  simp only [List.nil_append] at s1 s2
  rw [s1, s2]
  have hfold : ∀ cs : List MonitorConfig, parsedStanzas unmarshal r.data = cs →
      (split '\n' r.data).filterMap (stanzaOf unmarshal) = cs := fun cs h => h
  rw [hfold _ rfl]
  obtain ⟨k1, k2⟩ := regFold_keys (parsedStanzas unmarshal r.data) [] (by simp)
  have hlen : ((parsedStanzas unmarshal r.data).foldl
      (fun (m : Registry) c => m.set c.Name (newMonitorServer c)) []).length =
      ((parsedStanzas unmarshal r.data).map (fun c => c.Name)).dedup.length := by
    rw [← List.length_map _ (fun e : GoString × MonitorServer => e.1), ← List.card_toFinset,
      ← List.toFinset_card_of_nodup k1]
    congr 1
    ext k
    simp only [List.mem_toFinset]
    rw [k2]
    simp
  refine ⟨?_, k1, ?_, hlen, rfl, ?_⟩
  · intro name
    rw [regFold_get]
    cases (parsedStanzas unmarshal r.data).reverse.find? (fun c => decide (c.Name = name)) <;> rfl
  · intro name
    rw [k2]
    simp
  · intro a b hab hne
    rw [hlen, hab]
    simp [hne]

/-- Witness for C4: a malformed line between two well-formed stanzas, on top
of a registry that held another entry. -/
theorem C4_registry_reload_witness :
    parsedStanzas sampleUnmarshal mixedBlock = [m1Config, m2Config] ∧
    (handleMonitorConfig sampleUnmarshal (blockConn mixedBlock) oldRegistry).servers.length = 2 ∧
    (handleMonitorConfig sampleUnmarshal (blockConn mixedBlock) oldRegistry).servers.get
      "old".toList = none :=
  ⟨by decide,
   (C4_registry_reload sampleUnmarshal (blockConn mixedBlock) oldRegistry 6 _ _ rfl
      (by decide)).2.2.2.2.2 m1Config m2Config (by decide) (by decide),
   ((C4_registry_reload sampleUnmarshal (blockConn mixedBlock) oldRegistry 6 _ _ rfl
      (by decide)).1 "old".toList).trans (by decide)⟩

/-! ### Protocol round trip -/

theorem single_isPrefixOf (c x : Char) (l : GoString) :
    [c].isPrefixOf (x :: l) = (c == x) := by
  simp [List.isPrefixOf]

theorem indexFrom_cons (sub : GoString) (x : Char) (l : GoString) (i : Nat) :
    indexFrom sub (x :: l) i =
      if sub.isPrefixOf (x :: l) = true then (i : Int) else indexFrom sub l (i + 1) := rfl

theorem lastIndexFrom_cons (sub : GoString) (x : Char) (l : GoString) (i : Nat) (best : Int) :
    lastIndexFrom sub (x :: l) i best =
      lastIndexFrom sub l (i + 1) (if sub.isPrefixOf (x :: l) = true then (i : Int) else best) :=
  rfl

theorem indexFrom_single (c : Char) (a r : GoString) (i : Nat) (ha : c ∉ a) :
    indexFrom [c] (a ++ c :: r) i = ((i + a.length : Nat) : Int) := by
  induction a generalizing i with
  | nil =>
    rw [List.nil_append, indexFrom_cons, single_isPrefixOf, if_pos (by simp)]
    simp
  | cons x xs ih =>
    have hx : ¬ c = x := fun e => ha (by rw [e]; exact List.mem_cons_self _ _)
    have hxs : c ∉ xs := fun e => ha (List.mem_cons_of_mem _ e)
    rw [List.cons_append, indexFrom_cons, single_isPrefixOf, if_neg (by simpa using hx),
      ih (i + 1) hxs, List.length_cons]
    congr 1
    omega

theorem lastIndexFrom_absent (c : Char) (b : GoString) (i : Nat) (best : Int) (hb : c ∉ b) :
    lastIndexFrom [c] b i best = best := by
  induction b generalizing i with
  | nil => simp [lastIndexFrom, List.isPrefixOf]
  | cons x xs ih =>
    have hx : ¬ c = x := fun e => hb (by rw [e]; exact List.mem_cons_self _ _)
    have hxs : c ∉ xs := fun e => hb (List.mem_cons_of_mem _ e)
    rw [lastIndexFrom_cons, single_isPrefixOf, if_neg (by simpa using hx)]
    exact ih (i + 1) hxs

theorem lastIndexFrom_single (c : Char) (p b : GoString) (i : Nat) (best : Int) (hb : c ∉ b) :
    lastIndexFrom [c] (p ++ c :: b) i best = ((i + p.length : Nat) : Int) := by
  induction p generalizing i best with
  | nil =>
    rw [List.nil_append, lastIndexFrom_cons, single_isPrefixOf, if_pos (by simp),
      lastIndexFrom_absent c b (i + 1) _ hb]
    simp
  | cons x xs ih =>
    rw [List.cons_append, lastIndexFrom_cons, ih (i + 1), List.length_cons]
    congr 1
    omega

theorem slice_middle (a s b : GoString) :
    slice (a ++ s ++ b) (a.length : Int) ((a.length : Int) + (s.length : Int)) = some s := by
  unfold slice
  have hcond : (0 : Int) ≤ (a.length : Int) ∧ (a.length : Int) ≤ (a.length : Int) + (s.length : Int) ∧
      (a.length : Int) + (s.length : Int) ≤ ((a ++ s ++ b).length : Int) := by
    simp only [List.length_append]
    push_cast
    omega
  rw [if_pos hcond]
  have h1 : ((a.length : Int) + (s.length : Int)).toNat - (a.length : Int).toNat = s.length := by
    omega
  have h2 : (a.length : Int).toNat = a.length := by omega
  rw [h1, h2, List.append_assoc, List.drop_left, List.take_left]

/-- A line that carries a stanza `s` between text without an opening brace
and text without a closing brace, and contains "monitor" and "type", is
registered as the decoding of `s`. -/
theorem processLine_carrier (unmarshal : GoString → Option MonitorConfig)
    (a mid b : GoString) (cfg : MonitorConfig)
    (hum : unmarshal ('\x7b' :: (mid ++ ['\x7d'])) = some cfg)
    (hmon : contains (a ++ '\x7b' :: (mid ++ ['\x7d']) ++ b) "monitor".toList = true)
    (hty : contains (a ++ '\x7b' :: (mid ++ ['\x7d']) ++ b) "type".toList = true)
    (ha : '\x7b' ∉ a) (hb : '\x7d' ∉ b) :
    processLine unmarshal (a ++ '\x7b' :: (mid ++ ['\x7d']) ++ b) = LineStep.register cfg := by
  have hidx : index (a ++ '\x7b' :: (mid ++ ['\x7d']) ++ b) "\x7b".toList = (a.length : Int) := by
    have : a ++ '\x7b' :: (mid ++ ['\x7d']) ++ b = a ++ '\x7b' :: (mid ++ ['\x7d'] ++ b) := by simp
    rw [this]
    unfold index
    have := indexFrom_single '\x7b' a (mid ++ ['\x7d'] ++ b) 0 ha
    simpa using this
  have hlast : lastIndex (a ++ '\x7b' :: (mid ++ ['\x7d']) ++ b) "\x7d".toList
      = ((a.length + 1 + mid.length : Nat) : Int) := by
    have : a ++ '\x7b' :: (mid ++ ['\x7d']) ++ b = (a ++ '\x7b' :: mid) ++ '\x7d' :: b := by simp
    rw [this]
    unfold lastIndex
    have h := lastIndexFrom_single '\x7d' (a ++ '\x7b' :: mid) b 0 (-1) hb
    simp only [List.length_append, List.length_cons, Nat.zero_add] at h
    rw [show "\x7d".toList = ['\x7d'] from rfl, h]
    congr 1
    omega
  have hc1 : contains (a ++ '\x7b' :: (mid ++ ['\x7d']) ++ b) "\x7b".toList = true := by
    unfold contains; rw [hidx]; simp
  have hc2 : contains (a ++ '\x7b' :: (mid ++ ['\x7d']) ++ b) "\x7d".toList = true := by
    rw [contains_iff]
    exact ⟨a ++ '\x7b' :: mid, b, by simp⟩
  have hsl : slice (a ++ '\x7b' :: (mid ++ ['\x7d']) ++ b) (a.length : Int)
      (((a.length + 1 + mid.length : Nat) : Int) + 1) = some ('\x7b' :: (mid ++ ['\x7d'])) := by
    have := slice_middle a ('\x7b' :: (mid ++ ['\x7d'])) b
    simp only [List.length_cons, List.length_append, List.length_singleton, List.length_nil] at this
    rw [← this]
    congr 1
    push_cast
    ring
  unfold processLine
  rw [hmon, hty, hc1, hc2]
  simp only [Bool.and_self, if_true]
  rw [hidx, hlast]
  have hg : ¬ ((a.length : Int) = -1 ∨ ((a.length + 1 + mid.length : Nat) : Int) + 1 = 0) := by
    omega
  rw [if_neg hg, hsl]
  simp only [hum]

theorem processLine_no_monitor (unmarshal : GoString → Option MonitorConfig) (l : GoString)
    (h : contains l "monitor".toList = false) : processLine unmarshal l = LineStep.skip := by
  unfold processLine
  rw [h]
  simp

theorem configLoop_skip (unmarshal : GoString → Option MonitorConfig) (ls : List GoString)
    (st : LoopState) (more : List GoString)
    (h : ∀ l ∈ ls, contains l "monitor".toList = false) :
    configLoop unmarshal (ls ++ more) st = configLoop unmarshal more st := by
  induction ls with
  | nil => rfl
  | cons l ls ih =>
    rw [List.cons_append]
    unfold configLoop
    rw [processLine_no_monitor unmarshal l (h l (List.mem_cons_self _ _))]
    simp only
    rw [ih (fun x hx => h x (List.mem_cons_of_mem _ hx))]
    cases more <;> rfl

/-- C7, as stated, fails: when the line of the block is the stanza alone,
the session reaches the reporting loop but the registry stays empty, because
the line lacks the word "monitor". -/
theorem C7_counterexample :
    contains bareBlock "IPv4".toList = true ∧
    split '\n' bareBlock = ["You are connecting via: IPv4".toList, stanzaText] ∧
    sampleUnmarshal stanzaText = some m1Config ∧
    (connect sampleUnmarshal "u".toList "p".toList (some (scriptedPeer bareBlock)) []).result
      = ConnectResult.reporting 6 ∧
    (connect sampleUnmarshal "u".toList "p".toList (some (scriptedPeer bareBlock)) []).servers
      = [] := by
  refine ⟨by decide, by decide, by decide, by decide, by decide⟩

/-- C7, amended. A peer sends a greeting with "Authentication required", a
response with "Authentication successful" and a block that contains "IPv4"
and has exactly one line with the word "monitor", that line carrying the
stanza between its first opening and its last closing brace. If the JSON
decoder decodes the stanza to name "m1", type "tcp", host "example.com:80"
and interval 30, `connect` passes authentication and configuration and calls
`sendStatusLoop`, and the registry then holds exactly one worker, keyed "m1",
with that type, host and interval. -/
theorem C7_round_trip (unmarshal : GoString → Option MonitorConfig)
    (user password greeting response block a b : GoString) (pre post : List GoString)
    (more : List ReadResult) (ws : List Bool) (sent : List GoString) (servers : Registry)
    (hum : unmarshal stanzaText = some m1Config)
    (hg : contains greeting "Authentication required".toList = true)
    (hr : contains response "Authentication successful".toList = true)
    (h4 : contains block "IPv4".toList = true)
    (hlines : split '\n' block = pre ++ [a ++ stanzaText ++ b] ++ post)
    (hmon : contains (a ++ stanzaText ++ b) "monitor".toList = true)
    (ha : '\x7b' ∉ a) (hb : '\x7d' ∉ b)
    (hpre : ∀ l ∈ pre, contains l "monitor".toList = false)
    (hpost : ∀ l ∈ post, contains l "monitor".toList = false) :
    (connect unmarshal user password
      (some { reads := { data := greeting, err := false } :: { data := response, err := false }
                :: { data := block, err := false } :: more,
              writes := true :: ws, sent := sent }) servers).result
      = ConnectResult.reporting 6 ∧
    (connect unmarshal user password
      (some { reads := { data := greeting, err := false } :: { data := response, err := false }
                :: { data := block, err := false } :: more,
              writes := true :: ws, sent := sent }) servers).servers
      = [("m1".toList,
          { typ := "tcp".toList, DnsTime := 0, ConnectTime := 0, DownloadTime := 0,
            OnlineRate := 0, host := "example.com:80".toList, interval := 30 })] ∧
    (connect unmarshal user password
      (some { reads := { data := greeting, err := false } :: { data := response, err := false }
                :: { data := block, err := false } :: more,
              writes := true :: ws, sent := sent }) servers).spawned
      = [("m1".toList,
          { typ := "tcp".toList, DnsTime := 0, ConnectTime := 0, DownloadTime := 0,
            OnlineRate := 0, host := "example.com:80".toList, interval := 30 })] := by
  have hauth : handleAuth user password
      { reads := { data := greeting, err := false } :: { data := response, err := false }
                :: { data := block, err := false } :: more,
        writes := true :: ws, sent := sent }
      = (true, { reads := { data := block, err := false } :: more, writes := ws,
                 sent := sent ++ [user ++ ":".toList ++ password ++ "\n".toList] }) := by
    unfold handleAuth
    simp only [Conn.Read, Conn.Write, hg, hr]
    rfl
  have hst : stanzaText = '\x7b' :: (stanzaText.tail.dropLast ++ ['\x7d']) := by decide
  have hty : contains (a ++ stanzaText ++ b) "type".toList = true := by
    rw [contains_iff]
    have h1 : "type".toList <:+: stanzaText := (contains_iff _ _).mp (by decide)
    exact h1.trans ⟨a, b, rfl⟩
  have hline : processLine unmarshal (a ++ stanzaText ++ b) = LineStep.register m1Config := by
    rw [hst] at hum hmon hty ⊢
    exact processLine_carrier unmarshal a _ b m1Config hum hmon hty ha hb
  have hloop : configLoop unmarshal (split '\n' block)
      { servers := [], spawned := [], panicked := false } =
      { servers := [("m1".toList, newMonitorServer m1Config)],
        spawned := [("m1".toList, newMonitorServer m1Config)], panicked := false } := by
    rw [hlines, List.append_assoc, configLoop_skip unmarshal pre _ _ hpre]
    rw [List.singleton_append]
    unfold configLoop
    rw [hline]
    simp only
    have := configLoop_skip unmarshal post
      { servers := Registry.set [] m1Config.Name (newMonitorServer m1Config),
        spawned := [] ++ [(m1Config.Name, newMonitorServer m1Config)], panicked := false } [] hpost
    rw [List.append_nil] at this
    rw [this]
    rfl
  obtain ⟨c1, c2, c3⟩ := connect_auth_ok unmarshal user password _ _ servers hauth
  rw [c1, c2, c3]
  rw [handleMonitorConfig_unfold unmarshal _ _ _ _ servers _ _ rfl rfl]
  rw [if_neg (by simp), if_pos (Or.inl h4), hloop]
  simp only [h4, if_true]
  refine ⟨rfl, rfl, rfl⟩

/-- Witness for C7: the stanza behind the word "monitor" on a line of its
own. -/
theorem C7_round_trip_witness :
    (connect sampleUnmarshal "u".toList "p".toList (some (scriptedPeer monitorBlock)) []).result
      = ConnectResult.reporting 6 ∧
    (connect sampleUnmarshal "u".toList "p".toList (some (scriptedPeer monitorBlock)) []).servers
      = [("m1".toList,
          { typ := "tcp".toList, DnsTime := 0, ConnectTime := 0, DownloadTime := 0,
            OnlineRate := 0, host := "example.com:80".toList, interval := 30 })] :=
  ⟨(C7_round_trip sampleUnmarshal "u".toList "p".toList "Authentication required".toList
      "Authentication successful. Access granted.".toList monitorBlock "monitor ".toList []
      ["You are connecting via: IPv4".toList] [[]] [] [] [] []
      (by decide) (by decide) (by decide) (by decide) (by decide) (by decide) (by decide)
      (by decide) (by decide) (by decide)).1,
   (C7_round_trip sampleUnmarshal "u".toList "p".toList "Authentication required".toList
      "Authentication successful. Access granted.".toList monitorBlock "monitor ".toList []
      ["You are connecting via: IPv4".toList] [[]] [] [] [] []
      (by decide) (by decide) (by decide) (by decide) (by decide) (by decide) (by decide)
      (by decide) (by decide) (by decide)).2.1⟩

/-! ### Connectivity countdown -/

theorem collectStatus_timer (reach : Bool) (I : ℚ) (ip : Int) (t : ℚ) :
    (collectStatus reach I ip t).2 = timerStep I t := by
  unfold collectStatus timerStep
  split <;> rfl

theorem collectStatus_checks (reach : Bool) (I : ℚ) (ip : Int) (t : ℚ) :
    ((collectStatus reach I ip t).1.checks ≠ [] ↔ t ≤ 0) ∧
    ((collectStatus reach I ip t).1.checks = [] →
      (collectStatus reach I ip t).1.Online4 = false ∧
      (collectStatus reach I ip t).1.Online6 = false) := by
  unfold collectStatus
  by_cases h : t ≤ 0
  · rw [if_pos h]
    by_cases h4 : ip = 4
    · simp [h4, h]
    · simp [h4, h]
  · rw [if_neg h]
    simp [h]

/-- The snapshot of cycle `j` (counted from 0) is built from the timer value
that `j` countdown steps produce. -/
theorem statusLoop_get (I : ℚ) (ip : Int) (envs : List ReportEnv) (t : ℚ) (j : Nat)
    (out : StatusOut) (h : (statusLoop I ip t envs)[j]? = some out) :
    ∃ reach, out = (collectStatus reach I ip ((timerStep I)^[j] t)).1 := by
  induction envs generalizing t j with
  | nil => simp [statusLoop] at h
  | cons env rest ih =>
    unfold statusLoop at h
    simp only at h
    cases j with
    | zero =>
      refine ⟨env.reach, ?_⟩
      split at h <;> simpa using h.symm
    | succ j =>
      split at h
      · simp at h
      · rw [List.getElem?_cons_succ, collectStatus_timer] at h
        obtain ⟨reach, hr⟩ := ih _ _ h
        exact ⟨reach, by rw [Function.iterate_succ_apply]; exact hr⟩

theorem succ_mod_cases (j k : Nat) (hk : 0 < k) :
    (j % k + 1 = k ∧ (j + 1) % k = 0) ∨ (j % k + 1 < k ∧ (j + 1) % k = j % k + 1) := by
  have hlt : j % k < k := Nat.mod_lt j hk
  rcases Nat.lt_or_ge (j % k + 1) k with h | h
  · right
    refine ⟨h, ?_⟩
    rw [Nat.add_mod, Nat.mod_eq_of_lt (a := 1) (by omega), Nat.mod_eq_of_lt h]
  · left
    have he : j % k + 1 = k := by omega
    refine ⟨he, ?_⟩
    have hdiv : j = k * (j / k) + j % k := (Nat.div_add_mod j k).symm
    have : j + 1 = k * (j / k + 1) := by
      rw [Nat.mul_add, Nat.mul_one]
      omega
    rw [this]
    exact Nat.mul_mod_right k _

theorem timerStep_nonpos (I t : ℚ) (h : t ≤ 0) : timerStep I t = fsub 150 I := by
  unfold timerStep
  rw [if_pos h]

theorem timerStep_pos (I t : ℚ) (h : ¬ t ≤ 0) : timerStep I t = fsub t I := by
  unfold timerStep
  rw [if_neg h]

theorem f64_nonpos {q : ℚ} (h : q ≤ 0) : f64 q ≤ 0 := by
  unfold f64
  split
  · exact le_rfl
  · have hp : (0 : ℚ) < 2 ^ ulpExp q := zpow_pos (by norm_num) _
    have hd : q / (2 : ℚ) ^ ulpExp q ≤ 0 := div_nonpos_of_nonpos_of_nonneg h hp.le
    have hr : roundEven (q / (2 : ℚ) ^ ulpExp q) ≤ roundEven 0 := roundEven_mono hd
    have h0 : roundEven 0 = 0 := by simpa using roundEven_intCast 0
    rw [h0] at hr
    have hq : (roundEven (q / (2 : ℚ) ^ ulpExp q) : ℚ) ≤ 0 := by exact_mod_cast hr
    exact mul_nonpos_of_nonpos_of_nonneg hq hp.le

/-- When none of the countdown values `150 - r * I` below the `k`-th is
rounded, the timer before cycle `j` is non-positive on the multiples of `k`
and `150 - (j mod k) * I` in between. -/
theorem timer_exact (I : ℚ) (k : Nat) (hk1 : 150 ≤ (k : ℚ) * I)
    (hk2 : ∀ r : Nat, r < k → (r : ℚ) * I < 150)
    (hex : ∀ r : Nat, 1 ≤ r → r < k → f64 (150 - (r : ℚ) * I) = 150 - (r : ℚ) * I) (j : Nat) :
    (j % k = 0 → (timerStep I)^[j] 0 ≤ 0) ∧
    (j % k ≠ 0 → (timerStep I)^[j] 0 = (150 : ℚ) - ((j % k : Nat) : ℚ) * I) := by
  have hk : 0 < k := by
    rcases Nat.eq_zero_or_pos k with h | h
    · rw [h] at hk1; norm_num at hk1
    · exact h
  induction j with
  | zero => simp
  | succ j ih =>
    rw [Function.iterate_succ_apply']
    obtain ⟨ih0, ih1⟩ := ih
    have hlt : j % k < k := Nat.mod_lt j hk
    obtain ⟨r, hr⟩ : ∃ r, j % k = r := ⟨_, rfl⟩
    rw [hr] at ih0 ih1 hlt
    have hcases := succ_mod_cases j k hk
    rw [hr] at hcases
    have hnext : timerStep I ((timerStep I)^[j] 0) = f64 (150 - ((r + 1 : Nat) : ℚ) * I) := by
      by_cases hj : r = 0
      · rw [timerStep_nonpos _ _ (ih0 hj), hj]
        unfold fsub
        norm_num
      · have hpos : ¬ ((150 : ℚ) - (r : ℚ) * I ≤ 0) := by
          have := hk2 r hlt
          linarith
        rw [ih1 hj, timerStep_pos _ _ hpos]
        unfold fsub
        congr 1
        push_cast
        ring
    rw [hnext]
    rcases hcases with ⟨h1, h2⟩ | ⟨h1, h2⟩
    · rw [h2]
      refine ⟨fun _ => ?_, fun h => absurd rfl h⟩
      apply f64_nonpos
      rw [h1]
      linarith
    · rw [h2]
      refine ⟨fun h => by omega, fun _ => ?_⟩
      exact hex (r + 1) (by omega) h1

/-- C10, as stated, fails: with the float64 interval nearest to 25/3 seconds,
18 cycles are the least number whose intervals sum to 150 or more, yet the
check after the first one comes in the 19th cycle after it, because the
subtractions are rounded. -/
theorem C10_counterexample :
    0 < f64 (25 / 3) ∧ 150 ≤ 18 * f64 (25 / 3) ∧ 17 * f64 (25 / 3) < 150 ∧
    (sendStatusLoop (f64 (25 / 3)) 4 (List.replicate 20 quietEnv)).map (fun o => o.checks)
      = [4] :: (List.replicate 18 [] ++ [[4]]) := by
  refine ⟨by decide!, by decide!, by decide!, by decide!⟩

/-- C10, amended. In every reporting session the first cycle makes the
connectivity check, and every cycle without a check has `Online4` and
`Online6` false. Let `k` be the least number of cycles with `k * I ≥ 150`.
If the float64 countdown is free of rounding, that is, the values
`150 - r * I` for `0 < r < k` are float64 numbers, the check is made exactly
in the cycles `0, k, 2k, ...` of the session. Every interval of a whole
number of seconds is free of rounding in this sense. -/
theorem C10_connectivity_countdown (checkIP : Int) :
    (∀ (I : ℚ) (envs : List ReportEnv) (out : StatusOut),
      (sendStatusLoop I checkIP envs)[0]? = some out → out.checks ≠ []) ∧
    (∀ (I : ℚ) (envs : List ReportEnv) (j : Nat) (out : StatusOut),
      (sendStatusLoop I checkIP envs)[j]? = some out → out.checks = [] →
        out.Online4 = false ∧ out.Online6 = false) ∧
    (∀ (I : ℚ) (k : Nat), 150 ≤ (k : ℚ) * I → (∀ k' : Nat, 150 ≤ (k' : ℚ) * I → k ≤ k') →
      (∀ r : Nat, 1 ≤ r → r < k → f64 (150 - (r : ℚ) * I) = 150 - (r : ℚ) * I) →
      ∀ (envs : List ReportEnv) (j : Nat) (out : StatusOut),
        (sendStatusLoop I checkIP envs)[j]? = some out → (out.checks ≠ [] ↔ j % k = 0)) ∧
    (∀ n r : Nat, (r : ℚ) * (n : ℚ) < 150 →
      f64 (150 - (r : ℚ) * (n : ℚ)) = 150 - (r : ℚ) * (n : ℚ)) := by
  refine ⟨?_, ?_, ?_, ?_⟩
  · intro I envs out h
    obtain ⟨reach, hr⟩ := statusLoop_get I checkIP envs 0 0 out h
    rw [hr]
    exact (collectStatus_checks reach I checkIP _).1.mpr (by simp)
  · intro I envs j out h hc
    obtain ⟨reach, hr⟩ := statusLoop_get I checkIP envs 0 j out h
    rw [hr] at hc ⊢
    exact (collectStatus_checks reach I checkIP _).2 hc
  · intro I k hk1 hmin hex envs j out h
    have hk2 : ∀ r : Nat, r < k → (r : ℚ) * I < 150 := by
      intro r hr
      by_contra hge
      have := hmin r (not_lt.mp hge)
      omega
    obtain ⟨reach, hr⟩ := statusLoop_get I checkIP envs 0 j out h
    obtain ⟨t0, t1⟩ := timer_exact I k hk1 hk2 hex j
    rw [hr, (collectStatus_checks reach I checkIP _).1]
    constructor
    · intro hle
      by_contra hne
      rw [t1 hne] at hle
      have hk : 0 < k := by
        rcases Nat.eq_zero_or_pos k with h0 | h0
        · rw [h0] at hk1; norm_num at hk1
        · exact h0
      have := hk2 (j % k) (Nat.mod_lt _ hk)
      linarith
    · exact t0
  · intro n r hr
    have hrn : r * n < 150 := by exact_mod_cast hr
    have h := f64_intCast (150 - ((r * n : Nat) : Int)) (by
      rw [abs_le]
      have h0 : (0 : Int) ≤ ((r * n : Nat) : Int) := Int.natCast_nonneg _
      have h1 : ((r * n : Nat) : Int) < 150 := by exact_mod_cast hrn
      constructor <;> omega)
    push_cast at h
    exact h

/-- Witness for C10: with an interval of 30 seconds, `k = 5` and the check
is made in every fifth cycle. -/
theorem C10_connectivity_countdown_witness :
    (150 : ℚ) ≤ ((5 : Nat) : ℚ) * 30 ∧
    (sendStatusLoop 30 6 (List.replicate 12 quietEnv))[10]?
      = some { Online4 := false, Online6 := true, checks := [6] } ∧
    (({ Online4 := false, Online6 := true, checks := [6] } : StatusOut).checks ≠ []
      ↔ 10 % 5 = 0) :=
  ⟨by norm_num, by decide!,
   (C10_connectivity_countdown 6).2.2.1 30 5 (by norm_num)
      (fun k' hk' => by
        by_contra hlt
        have h4 : (k' : ℚ) ≤ 4 := by exact_mod_cast (by omega : k' ≤ 4)
        linarith)
      (fun r _ hr => by
        have := (C10_connectivity_countdown 6).2.2.2 30 r (by
          have h4 : (r : ℚ) ≤ 4 := by exact_mod_cast (by omega : r ≤ 4)
          push_cast
          linarith)
        simpa using this)
      (List.replicate 12 quietEnv) 10 _ (by decide!)⟩

/-! ### Adaptive delay -/

theorem pingCycle_interval (u : Int) (s : PingState) (d : Option Int) :
    (pingCycle u s d).interval =
      if s.history.length ≥ PingPacketHistoryLen then wrap64 (u * 60) else s.interval := by
  have h1 : ∀ t : PingState, (pingPublish t).interval = t.interval := by
    intro t; unfold pingPublish; split <;> rfl
  have h2 : ∀ t : PingState, (pingRecord t d).interval = t.interval := by
    intro t; cases d <;> rfl
  unfold pingCycle
  rw [h1, h2]
  unfold pingEvict
  split <;> rfl

/-- The delay that `pingWorker` sleeps after its `n`-th probe: the base
interval for the first 64 probes, 60 times the base (in `int64` arithmetic)
from the 65th on. -/
theorem pingWorker_interval (u : Int) (dials : List (Option Int)) :
    (pingWorker u dials).interval =
      if dials.length ≤ 64 then u else wrap64 (u * 60) := by
  induction dials using List.reverseRecOn with
  | nil => rfl
  | append_singleton ds d ih =>
    rw [pingWorker_snoc, pingCycle_interval, pingWorker_length, ih]
    have h64 : PingPacketHistoryLen = 64 := rfl
    rw [h64]
    simp only [List.length_append, List.length_singleton]
    by_cases h : ds.length ≥ 64
    · have h1 : min ds.length 64 ≥ 64 := by omega
      have h2 : ¬ ds.length + 1 ≤ 64 := by omega
      rw [if_pos h1, if_neg h2]
    · have h1 : ¬ min ds.length 64 ≥ 64 := by omega
      have h2 : ds.length + 1 ≤ 64 := by omega
      have h3 : ds.length ≤ 64 := by omega
      rw [if_neg h1, if_pos h2, if_pos h3]

theorem wrap64_le (x : Int) (h : 0 ≤ x) : wrap64 x ≤ x := by
  unfold wrap64
  omega

theorem wrap64_id (x : Int) (h1 : -(2 : Int) ^ 63 ≤ x) (h2 : x < 2 ^ 63) : wrap64 x = x := by
  unfold wrap64
  omega

theorem monitorCycle_stopped (s : MonitorState) (env : MonitorEnv) (h : s.running = false) :
    monitorCycle s env = s := by
  unfold monitorCycle
  rw [if_pos h]

theorem monitorCycle_exit (s : MonitorState) (env : MonitorEnv) (hr : s.running = true)
    (h : (!env.stop && env.registered) = false) :
    monitorCycle s env = { s with running := false } := by
  unfold monitorCycle
  rw [if_neg (by simp [hr])]
  cases hs : env.stop
  · have hreg : env.registered = false := by simpa [hs] using h
    rw [if_neg (by simp), if_pos hreg]
  · rw [if_pos rfl]

theorem monitorCycle_body (s : MonitorState) (env : MonitorEnv) (hr : s.running = true)
    (h : (!env.stop && env.registered) = true) :
    monitorCycle s env =
      monitorPublish (monitorRecord (monitorEvict s) (monitorCheck env.net s.ms.typ s.ms.host)) := by
  have hs : env.stop = false := by
    cases hs : env.stop
    · rfl
    · simp [hs] at h
  have hreg : env.registered = true := by simpa [hs] using h
  unfold monitorCycle
  rw [if_neg (by simp [hr]), if_neg (by simp [hs]), if_neg (by simp [hreg])]

/-- What the body of the loop does to the fields that decide the delay. -/
theorem monitorBody_fields (s : MonitorState) (r : CheckResult) :
    (monitorPublish (monitorRecord (monitorEvict s) r)).running = s.running ∧
    (monitorPublish (monitorRecord (monitorEvict s) r)).ms.interval = s.ms.interval ∧
    (monitorPublish (monitorRecord (monitorEvict s) r)).interval =
      (if s.history.length ≥ OnlinePacketHistoryLen then wrap64 (secondsOfInt s.ms.interval * 5)
       else s.interval) ∧
    (monitorPublish (monitorRecord (monitorEvict s) r)).history.length =
      (if s.history.length ≥ OnlinePacketHistoryLen then s.history.length
       else s.history.length + 1) := by
  have hlen := monitorEvict_length s
  have hrec := monitorRecord_history (monitorEvict s) r
  have hpub := monitorPublish_history (monitorRecord (monitorEvict s) r)
  have p1 : ∀ t : MonitorState, (monitorPublish t).running = t.running ∧
      (monitorPublish t).ms.interval = t.ms.interval ∧
      (monitorPublish t).interval = t.interval := by
    intro t; unfold monitorPublish; split <;> exact ⟨rfl, rfl, rfl⟩
  have p2 : ∀ t : MonitorState, (monitorRecord t r).running = t.running ∧
      (monitorRecord t r).ms.interval = t.ms.interval ∧
      (monitorRecord t r).interval = t.interval := by
    intro t; unfold monitorRecord; split <;> exact ⟨rfl, rfl, rfl⟩
  have p3 : (monitorEvict s).running = s.running ∧
      (monitorEvict s).interval =
        (if s.history.length ≥ OnlinePacketHistoryLen then
          wrap64 (secondsOfInt s.ms.interval * 5) else s.interval) := by
    unfold monitorEvict; split <;> exact ⟨rfl, rfl⟩
  refine ⟨?_, ?_, ?_, ?_⟩
  · rw [(p1 _).1, (p2 _).1, p3.1]
  · rw [(p1 _).2.1, (p2 _).2.1, monitorEvict_ms]
  · rw [(p1 _).2.2, (p2 _).2.2, p3.2]
  · rw [hpub, hrec, List.length_append, List.length_singleton]
    by_cases hfull : s.history.length ≥ OnlinePacketHistoryLen
    · rw [if_pos hfull]
      exact hlen.2 hfull
    · rw [if_neg hfull, hlen.1 (by omega)]

/-- A worker whose wake-ups all reach the body of the loop. -/
theorem monitorWorker_running (ms : MonitorServer) (envs : List MonitorEnv)
    (hall : ∀ e ∈ envs, (!e.stop && e.registered) = true) :
    (monitorWorker ms envs).running = true ∧
    (monitorWorker ms envs).ms.interval = ms.interval ∧
    (monitorWorker ms envs).history.length = min envs.length 64 ∧
    (monitorWorker ms envs).interval =
      (if envs.length ≤ 64 then secondsOfInt ms.interval
       else wrap64 (secondsOfInt ms.interval * 5)) := by
  induction envs using List.reverseRecOn with
  | nil => exact ⟨rfl, rfl, rfl, rfl⟩
  | append_singleton es e ih =>
    obtain ⟨i1, i2, i3, i4⟩ := ih (fun x hx => hall x (List.mem_append_left _ hx))
    have he := hall e (List.mem_append_right _ (List.mem_singleton_self e))
    rw [monitorWorker_snoc, monitorCycle_body _ _ i1 he]
    obtain ⟨b1, b2, b3, b4⟩ := monitorBody_fields (monitorWorker ms es)
      (monitorCheck e.net (monitorWorker ms es).ms.typ (monitorWorker ms es).ms.host)
    rw [b1, b2, b3, b4, i2, i3, i4]
    have h64 : OnlinePacketHistoryLen = 64 := rfl
    rw [h64]
    simp only [List.length_append, List.length_singleton]
    refine ⟨i1, trivial, ?_, ?_⟩
    · by_cases h : es.length ≥ 64
      · rw [if_pos (by omega)]; omega
      · rw [if_neg (by omega)]; omega
    · by_cases h : es.length ≥ 64
      · rw [if_pos (by omega), if_neg (by omega)]
      · rw [if_neg (by omega), if_pos (by omega), if_pos (by omega)]

theorem foldl_stopped (s : MonitorState) (envs : List MonitorEnv) (h : s.running = false) :
    envs.foldl monitorCycle s = s := by
  induction envs with
  | nil => rfl
  | cons e es ih => rw [List.foldl_cons, monitorCycle_stopped s e h, ih]

/-- Wake-ups after the first exit change nothing but `running`. -/
theorem monitorWorker_bodyRuns (ms : MonitorServer) (envs : List MonitorEnv) :
    (monitorWorker ms envs).interval = (monitorWorker ms (bodyRuns envs)).interval ∧
    (monitorWorker ms envs).history = (monitorWorker ms (bodyRuns envs)).history ∧
    (monitorWorker ms envs).lostCount = (monitorWorker ms (bodyRuns envs)).lostCount ∧
    (monitorWorker ms envs).ms = (monitorWorker ms (bodyRuns envs)).ms := by
  have hsplit : envs = bodyRuns envs ++ envs.dropWhile (fun e => !e.stop && e.registered) :=
    (List.takeWhile_append_dropWhile _ envs).symm
  have hrun := (monitorWorker_running ms (bodyRuns envs)
    (fun e he => by
      unfold bodyRuns at he
      have h := List.mem_takeWhile_imp (p := fun e : MonitorEnv => !e.stop && e.registered) he
      exact h)).1
  have hfold : monitorWorker ms envs =
      (envs.dropWhile (fun e => !e.stop && e.registered)).foldl monitorCycle
        (monitorWorker ms (bodyRuns envs)) := by
    conv_lhs => rw [hsplit]
    unfold monitorWorker
    rw [List.foldl_append]
  rw [hfold]
  cases hd : envs.dropWhile (fun e => !e.stop && e.registered) with
  | nil => exact ⟨rfl, rfl, rfl, rfl⟩
  | cons e es =>
    have hne : (!e.stop && e.registered) = false := by
      have := List.head_dropWhile_not (fun e : MonitorEnv => !e.stop && e.registered) envs
        (by rw [hd]; simp)
      simp only [hd, List.head_cons] at this
      simpa using this
    rw [List.foldl_cons, monitorCycle_exit _ _ hrun hne, foldl_stopped _ _ rfl]
    exact ⟨rfl, rfl, rfl, rfl⟩

/-- C12, as stated, fails: the 64th probe fills the ring, and the delay slept
after it is still the base interval, for both workers; the longer delay
starts with the 65th probe. -/
theorem C12_counterexample :
    (pingWorker Second sampleDials).history.length = 64 ∧
    (pingWorker Second sampleDials).interval = Second ∧
    (pingWorker Second sampleDials).interval ≠ 60 * Second ∧
    (monitorWorker (newMonitorServer m1Config) (List.replicate 64 goodEnv)).history.length = 64 ∧
    (monitorWorker (newMonitorServer m1Config) (List.replicate 64 goodEnv)).interval
      = secondsOfInt 30 ∧
    (monitorWorker (newMonitorServer m1Config) (List.replicate 64 goodEnv)).interval
      ≠ 5 * secondsOfInt 30 := by
  refine ⟨by decide!, by decide!, by decide!, by decide!, by decide!, by decide!⟩

/-- C12, amended. The delay that `pingWorker` sleeps after a probe is the
base interval `b` after each of the first 64 probes, the probe that fills the
ring included, and `60 * b` in `int64` arithmetic, which is `60 * b` whenever
that fits, after every later probe. `monitorWorker` does the same with its
base interval `time.Duration(ms.interval) * time.Second` and factor 5,
counted over the wake-ups that reach the body of its loop. The factor is
applied to the base interval and never compounded; for a base interval that
is not negative the delay never exceeds the factor times the base. -/
theorem C12_adaptive_delay (b : Int) (dials : List (Option Int)) (ms : MonitorServer)
    (envs : List MonitorEnv) :
    ((dials.length ≤ 64 → (pingWorker b dials).interval = b) ∧
      ((pingWorker b dials).history.length < 64 → (pingWorker b dials).interval = b) ∧
      (64 < dials.length → (pingWorker b dials).interval = wrap64 (b * 60)) ∧
      (64 < dials.length → -(2 : Int) ^ 63 ≤ 60 * b → 60 * b < 2 ^ 63 →
        (pingWorker b dials).interval = 60 * b) ∧
      (0 ≤ b → (pingWorker b dials).interval ≤ 60 * b)) ∧
    (((bodyRuns envs).length ≤ 64 →
        (monitorWorker ms envs).interval = secondsOfInt ms.interval) ∧
      ((monitorWorker ms envs).history.length < 64 →
        (monitorWorker ms envs).interval = secondsOfInt ms.interval) ∧
      (64 < (bodyRuns envs).length →
        (monitorWorker ms envs).interval = wrap64 (secondsOfInt ms.interval * 5)) ∧
      (64 < (bodyRuns envs).length → -(2 : Int) ^ 63 ≤ 5 * secondsOfInt ms.interval →
        5 * secondsOfInt ms.interval < 2 ^ 63 →
        (monitorWorker ms envs).interval = 5 * secondsOfInt ms.interval) ∧
      (0 ≤ secondsOfInt ms.interval →
        (monitorWorker ms envs).interval ≤ 5 * secondsOfInt ms.interval)) := by
  have hp := pingWorker_interval b dials
  have hpl := pingWorker_length b dials
  have h64 : PingPacketHistoryLen = 64 := rfl
  rw [h64] at hpl
  have hall : ∀ e ∈ bodyRuns envs, (!e.stop && e.registered) = true := by
    intro e he
    unfold bodyRuns at he
    have h := List.mem_takeWhile_imp (p := fun e : MonitorEnv => !e.stop && e.registered) he
    exact h
  obtain ⟨_, _, r3, r4⟩ := monitorWorker_running ms (bodyRuns envs) hall
  obtain ⟨e1, e2, _, _⟩ := monitorWorker_bodyRuns ms envs
  rw [← e1] at r4
  rw [← e2] at r3
  refine ⟨⟨?_, ?_, ?_, ?_, ?_⟩, ⟨?_, ?_, ?_, ?_, ?_⟩⟩
  · intro h
    rw [hp, if_pos h]
  · intro h
    rw [hp, if_pos (by omega)]
  · intro h
    rw [hp, if_neg (by omega)]
  · intro h h1 h2
    rw [hp, if_neg (by omega), wrap64_id _ (by omega) (by omega)]
    ring
  · intro h
    rw [hp]
    split
    · omega
    · have := wrap64_le (b * 60) (by omega)
      omega
  · intro h
    rw [r4, if_pos h]
  · intro h
    rw [r4, if_pos (by omega)]
  · intro h
    rw [r4, if_neg (by omega)]
  · intro h h1 h2
    rw [r4, if_neg (by omega), wrap64_id _ (by omega) (by omega)]
    ring
  · intro h
    rw [r4]
    split
    · omega
    · have := wrap64_le (secondsOfInt ms.interval * 5) (by omega)
      omega

/-- Witness for C12: after the 65th probe the delay is 60 seconds for a base
interval of one second. -/
theorem C12_adaptive_delay_witness :
    64 < (sampleDials ++ [none]).length ∧
    (pingWorker Second (sampleDials ++ [none])).interval = 60 * Second :=
  ⟨by decide,
   (C12_adaptive_delay Second (sampleDials ++ [none]) (newMonitorServer m1Config) []).1.2.2.2.1
      (by decide) (by decide) (by decide)⟩

/-! ### Failed configuration -/

/-- C13. When `handleMonitorConfig` fails, because the read returns an error
or because the block contains neither "IPv4" nor "IPv6", the map is what it
was before the call and no worker is started; every name registered before
is still registered. -/
theorem C13_failed_config (unmarshal : GoString → Option MonitorConfig) (conn : Conn)
    (servers : Registry) :
    ((conn.reads = [] ∨ ∃ r rest, conn.reads = r :: rest ∧ r.err = true) →
      (handleMonitorConfig unmarshal conn servers).result = ConfigResult.readError) ∧
    (∀ r rest, conn.reads = r :: rest → r.err = false →
      contains r.data "IPv4".toList = false → contains r.data "IPv6".toList = false →
      (handleMonitorConfig unmarshal conn servers).result = ConfigResult.unknownFamily) ∧
    (((handleMonitorConfig unmarshal conn servers).result = ConfigResult.readError ∨
        (handleMonitorConfig unmarshal conn servers).result = ConfigResult.unknownFamily) →
      (handleMonitorConfig unmarshal conn servers).servers = servers ∧
      (handleMonitorConfig unmarshal conn servers).spawned = [] ∧
      ∀ name, (handleMonitorConfig unmarshal conn servers).servers.get name
        = servers.get name) := by
  obtain ⟨reads, writes, sent⟩ := conn
  cases reads with
  | nil =>
    refine ⟨fun _ => rfl, fun r rest h => by simp at h, fun _ => ⟨rfl, rfl, fun _ => rfl⟩⟩
  | cons r rest =>
    rw [handleMonitorConfig_unfold unmarshal r rest writes sent servers _ _ rfl rfl]
    by_cases he : r.err = true
    · rw [if_pos he]
      refine ⟨fun _ => rfl, ?_, fun _ => ⟨rfl, rfl, fun _ => rfl⟩⟩
      intro r' rest' h hr'
      simp only [List.cons.injEq] at h
      rw [← h.1, he] at hr'
      exact absurd hr' (by simp)
    · rw [if_neg he]
      by_cases hm : contains r.data "IPv4".toList = true ∨ contains r.data "IPv6".toList = true
      · rw [if_pos hm]
        refine ⟨?_, ?_, ?_⟩
        · rintro (h | ⟨r', rest', h, hr'⟩)
          · simp at h
          · simp only [List.cons.injEq] at h
            rw [← h.1] at hr'
            exact absurd hr' he
        · intro r' rest' h _ h4 h6
          simp only [List.cons.injEq] at h
          rw [← h.1] at h4 h6
          rcases hm with h | h
          · rw [h4] at h; exact absurd h (by simp)
          · rw [h6] at h; exact absurd h (by simp)
        · intro h
          simp only at h
          split at h <;> simp at h
      · rw [if_neg hm]
        refine ⟨?_, fun _ _ _ _ _ _ => rfl, fun _ => ⟨rfl, rfl, fun _ => rfl⟩⟩
        rintro (h | ⟨r', rest', h, hr'⟩)
        · simp at h
        · simp only [List.cons.injEq] at h
          rw [← h.1] at hr'
          exact absurd hr' he

/-- Witness for C13: a failed read and a block without a marker both leave
the registry of the earlier session in place. -/
theorem C13_failed_config_witness :
    (handleMonitorConfig sampleUnmarshal brokenConn oldRegistry).result
      = ConfigResult.readError ∧
    (handleMonitorConfig sampleUnmarshal brokenConn oldRegistry).servers = oldRegistry ∧
    (handleMonitorConfig sampleUnmarshal (blockConn "hello".toList) oldRegistry).result
      = ConfigResult.unknownFamily ∧
    (handleMonitorConfig sampleUnmarshal (blockConn "hello".toList) oldRegistry).servers
      = oldRegistry ∧
    (handleMonitorConfig sampleUnmarshal (blockConn "hello".toList) oldRegistry).spawned = [] :=
  ⟨(C13_failed_config sampleUnmarshal brokenConn oldRegistry).1
      (Or.inr ⟨_, _, rfl, rfl⟩),
   ((C13_failed_config sampleUnmarshal brokenConn oldRegistry).2.2
      (Or.inl (by decide))).1,
   (C13_failed_config sampleUnmarshal (blockConn "hello".toList) oldRegistry).2.1
      _ _ rfl rfl (by decide) (by decide),
   ((C13_failed_config sampleUnmarshal (blockConn "hello".toList) oldRegistry).2.2
      (Or.inr (by decide))).1,
   ((C13_failed_config sampleUnmarshal (blockConn "hello".toList) oldRegistry).2.2
      (Or.inr (by decide))).2.1⟩

end ServerStatus
